import Mathlib

/-!
# Object lists of the VCMI client (client/widgets/ObjectLists.cpp)

A shallow embedding of `CObjectList`, `CTabbedInt`, `CListBox`, `DropBoxList` and
`CDropBox`.

* `size_t` values are natural numbers below `SZ = 2^64`, `unsigned` values natural
  numbers below `UINT = 2^32`; every addition, subtraction and increment of the source
  is written with its wrap-around.
* A `std::shared_ptr<CIntObject>` is a `Ptr`: `none` is the null pointer, `some o` points
  to the widget with identity `o`.
* Undefined behaviour of the source (`front()` on an empty list, a call through a null
  pointer, a division by zero) makes the embedded function return `none`.
* Calls into the widget framework that do not touch the state of the lists (`moveTo`,
  `redraw`, the slider) are recorded in a trace of `Effect`s. What `CSlider` does when it is
  moved belongs to another file and is not part of the embedding.
* The `OBJECT_CONSTRUCTION_*` macros register the objects built in their scope as children;
  `addChild` covers this registration for the items the lists create.
-/

namespace ObjectLists

/-- Modulus of `size_t` arithmetic (64-bit `size_t`). -/
def SZ : Nat := 18446744073709551616

/-- Modulus of `unsigned` arithmetic. -/
def UINT : Nat := 4294967296

/-- `a + b` computed in `size_t`. -/
def addSz (a b : Nat) : Nat := (a + b) % SZ

/-- `a - b` computed in `size_t` (operands below `SZ`). -/
def subSz (a b : Nat) : Nat := (a + SZ - b) % SZ

/-- Identity of a widget object. -/
abbrev Obj := Nat

/-- A `std::shared_ptr<CIntObject>`: `none` is the null pointer. -/
abbrev Ptr := Option Obj

/-- A screen position. -/
structure Point where
  x : Int
  y : Int
deriving DecidableEq, Repr

/-- Point addition, `operator+=` of the source. -/
def Point.add (p q : Point) : Point := ⟨p.x + q.x, p.y + q.y⟩

/-- Calls into the widget framework whose effect lies outside the lists' own state. -/
inductive Effect
  | setRecActions (o : Obj) (actions : Nat)
  | moveTo (o : Obj) (p : Point)
  | redraw
  | sliderCreate (capacity amount value : Nat)
  | sliderMoveTo (value : Nat)
  | sliderSetAmount (amount : Nat)
deriving DecidableEq, Repr

/-- What the lists take from their surroundings.

* `createObject hist index` is the result of the `CreateFunc` callback on `index` when
  `hist` lists the indices of its earlier calls (newest first): any deterministic,
  possibly stateful callback.
* `makeShared n` is the object `std::make_shared<CIntObject>()` yields when `n` items
  were created before.
* `DISPOSE`, `defActionsDef` and `origin` are the framework's action flag, the default
  actions and the position of a newly constructed `CIntObject`. -/
structure Env where
  createObject : List Nat → Nat → Ptr
  makeShared : Nat → Obj
  DISPOSE : Nat
  defActionsDef : Nat
  origin : Point

/-- The `CObjectList` base: the part of the widget tree the lists act on.

`created` is the history of `createItem`: the index passed to `createObject` and the
item that `createItem` returned, newest first. -/
structure CObjectList where
  children : List Obj
  activated : List Obj
  defActions : Nat
  active : Bool
  pos : Point
  created : List (Nat × Obj)
  effects : List Effect
deriving DecidableEq, Repr

/-- Modelled from the spec: `CIntObject::addChild` is not part of the source file; section 6
of the spec names it as parent/child registration. The child is appended unless it is
already registered. -/
def CObjectList.addChild (w : CObjectList) (o : Obj) : CObjectList :=
  if o ∈ w.children then w else { w with children := w.children ++ [o] }

/-- Modelled from the spec: `CIntObject::removeChild` is not part of the source file; section 6
of the spec names it as parent/child registration. The child is taken out of the children. -/
def CObjectList.removeChild (w : CObjectList) (o : Obj) : CObjectList :=
  { w with children := w.children.filter (fun c => c != o) }

/-- Modelled from the spec: `CIntObject::activate` is not part of the source file; section 6
of the spec names it as activation. The object's active flag is set. -/
def CObjectList.activateObj (w : CObjectList) (o : Obj) : CObjectList :=
  if o ∈ w.activated then w else { w with activated := o :: w.activated }

/-- Modelled from the spec: `CIntObject::deactivate` is not part of the source file; section 6
of the spec names it as deactivation. The object's active flag is cleared. -/
def CObjectList.deactivateObj (w : CObjectList) (o : Obj) : CObjectList :=
  { w with activated := w.activated.filter (fun c => c != o) }

/-- `CObjectList::CObjectList(create)`: a new widget without children. -/
def CObjectList.ctor (env : Env) : CObjectList :=
  { children := [], activated := [], defActions := env.defActionsDef, active := false,
    pos := env.origin, created := [], effects := [] }

/-- `CObjectList::deleteItem`. -/
def CObjectList.deleteItem (w : CObjectList) (item : Ptr) : CObjectList :=
  match item with
  | none => w
  | some o => (w.deactivateObj o).removeChild o

/-- `CObjectList::createItem`: the callback's object, or a default `CIntObject` when the
callback returns null; the item is registered as a child and activated. -/
def CObjectList.createItem (env : Env) (w : CObjectList) (index : Nat) : CObjectList × Obj :=
  let item : Obj :=
    match env.createObject (w.created.map Prod.fst) index with
    | some o => o
    | none => env.makeShared w.created.length
  let w1 : CObjectList :=
    { w with created := (index, item) :: w.created,
             effects := Effect.setRecActions item w.defActions :: w.effects }
  (((w1.addChild item).activateObj item), item)

/-! ## CTabbedInt -/

/-- State of a `CTabbedInt`. -/
structure CTabbedInt where
  base : CObjectList
  activeTab : Ptr
  activeID : Nat
deriving DecidableEq, Repr

/-- `CTabbedInt::reset`. -/
def CTabbedInt.reset (env : Env) (s : CTabbedInt) : CTabbedInt :=
  let w1 := s.base.deleteItem s.activeTab
  let r := w1.createItem env s.activeID
  let w2 : CObjectList := { r.1 with effects := Effect.moveTo r.2 r.1.pos :: r.1.effects }
  let w3 : CObjectList := if w2.active then { w2 with effects := Effect.redraw :: w2.effects } else w2
  { s with base := w3, activeTab := some r.2 }

/-- `CTabbedInt::CTabbedInt(create, position, ActiveID)`. -/
def CTabbedInt.ctor (env : Env) (position : Point) (ActiveID : Nat) : CTabbedInt :=
  let w0 := CObjectList.ctor env
  let w1 : CObjectList :=
    { w0 with defActions := w0.defActions - (w0.defActions &&& env.DISPOSE),
              pos := w0.pos.add position }
  CTabbedInt.reset env { base := w1, activeTab := none, activeID := ActiveID }

/-- `CTabbedInt::setActive`. -/
def CTabbedInt.setActive (env : Env) (s : CTabbedInt) (which : Nat) : CTabbedInt :=
  if which ≠ s.activeID then CTabbedInt.reset env { s with activeID := which } else s

/-- `CTabbedInt::getItem`. -/
def CTabbedInt.getItem (s : CTabbedInt) : Ptr := s.activeTab

/-- The calls a client can make on a `CTabbedInt`. -/
inductive TabOp
  | setActive (which : Nat)
  | reset
deriving DecidableEq, Repr

/-- One client call. -/
def CTabbedInt.step (env : Env) (s : CTabbedInt) : TabOp → CTabbedInt
  | TabOp.setActive which => CTabbedInt.setActive env s which
  | TabOp.reset => CTabbedInt.reset env s

/-- A sequence of client calls, first call first. -/
def CTabbedInt.run (env : Env) (s : CTabbedInt) : List TabOp → CTabbedInt
  | [] => s
  | op :: ops => CTabbedInt.run env (CTabbedInt.step env s op) ops

/-! ## CListBox -/

/-- State of a `CListBox`; `slider` tells whether a `CSlider` is attached. -/
structure CListBox where
  base : CObjectList
  first : Nat
  totalSize : Nat
  itemOffset : Point
  items : List Ptr
  slider : Bool
deriving DecidableEq, Repr

/-- The loop of `CListBox::updatePositions`: every element is moved to its place; calling
`moveTo` through a null element is undefined. -/
def CListBox.moveItems (itemOffset : Point) : Point → List Ptr → List Effect → Option (List Effect)
  | _, [], effs => some effs
  | _, none :: _, _ => none
  | itemPos, some o :: rest, effs =>
    CListBox.moveItems itemOffset (itemPos.add itemOffset) rest (Effect.moveTo o itemPos :: effs)

/-- `CListBox::updatePositions`. -/
def CListBox.updatePositions (s : CListBox) : Option CListBox :=
  match CListBox.moveItems s.itemOffset s.base.pos s.items s.base.effects with
  | none => none
  | some effs =>
    let effs1 : List Effect :=
      if s.base.active then
        (if s.slider then Effect.sliderMoveTo s.first :: Effect.redraw :: effs
         else Effect.redraw :: effs)
      else effs
    some { s with base := { s.base with effects := effs1 } }

/-- The loop of `CListBox::reset`: every element is deleted and replaced by the item created
for `current++`. -/
def CListBox.resetLoop (env : Env) : CObjectList → Nat → List Ptr → CObjectList × List Ptr
  | w, _, [] => (w, [])
  | w, current, elem :: rest =>
    let r := (w.deleteItem elem).createItem env current
    let t := CListBox.resetLoop env r.1 ((current + 1) % SZ) rest
    (t.1, some r.2 :: t.2)

/-- `CListBox::reset`. -/
def CListBox.reset (env : Env) (s : CListBox) : Option CListBox :=
  let t := CListBox.resetLoop env s.base s.first s.items
  CListBox.updatePositions { s with base := t.1, items := t.2 }

/-- `CListBox::CListBox(create, Pos, ItemOffset, VisibleSize, TotalSize, InitialPos, Slider, SliderPos)`. -/
def CListBox.ctor (env : Env) (Pos ItemOffset : Point) (VisibleSize TotalSize InitialPos : Nat)
    (Slider : Int) : Option CListBox :=
  let w0 := CObjectList.ctor env
  let w1 : CObjectList := { w0 with pos := w0.pos.add Pos }
  let hasSlider : Bool := decide (Slider % 2 = 1)
  let w2 : CObjectList :=
    if hasSlider then
      { w1 with effects := Effect.sliderCreate VisibleSize TotalSize InitialPos :: w1.effects }
    else w1
  CListBox.reset env
    { base := w2, first := InitialPos, totalSize := TotalSize, itemOffset := ItemOffset,
      items := List.replicate VisibleSize none, slider := hasSlider }

/-- `CListBox::resize`. -/
def CListBox.resize (env : Env) (s : CListBox) (newSize : Nat) : Option CListBox :=
  let s1 : CListBox := { s with totalSize := newSize }
  let s2 : CListBox :=
    if s1.slider then
      { s1 with base := { s1.base with effects := Effect.sliderSetAmount s1.totalSize :: s1.base.effects } }
    else s1
  CListBox.reset env s2

/-- `CListBox::size`. -/
def CListBox.size (s : CListBox) : Nat := s.totalSize

/-- The search loop of `CListBox::getItem`. -/
def CListBox.getItemLoop (which : Nat) : Nat → List Ptr → Ptr
  | _, [] => none
  | i, p :: rest => if i = which then p else CListBox.getItemLoop which ((i + 1) % SZ) rest

/-- `CListBox::getItem`. -/
def CListBox.getItem (s : CListBox) (which : Nat) : Ptr :=
  if which < s.first ∨ which > addSz s.first s.items.length ∨ which > s.totalSize then none
  else CListBox.getItemLoop which s.first s.items

/-- The search loop of `CListBox::getIndexOf`. -/
def CListBox.getIndexOfLoop (item : Ptr) : Nat → List Ptr → Nat
  | _, [] => SZ - 1
  | i, p :: rest => if p = item then i else CListBox.getIndexOfLoop item ((i + 1) % SZ) rest

/-- `CListBox::getIndexOf`; `size_t(-1)` is `SZ - 1`. -/
def CListBox.getIndexOf (s : CListBox) (item : Ptr) : Nat :=
  CListBox.getIndexOfLoop item s.first s.items

/-- `CListBox::moveToNext`. -/
def CListBox.moveToNext (env : Env) (s : CListBox) : Option CListBox :=
  if addSz s.first s.items.length < s.totalSize then
    let first1 := addSz s.first 1
    match s.items with
    | [] => none
    | front :: rest =>
      let w1 := s.base.deleteItem front
      let r := w1.createItem env (addSz first1 rest.length)
      CListBox.updatePositions { s with base := r.1, first := first1, items := rest ++ [some r.2] }
  else some s

/-- `CListBox::moveToPrev`. -/
def CListBox.moveToPrev (env : Env) (s : CListBox) : Option CListBox :=
  if s.first ≠ 0 then
    let first1 := s.first - 1
    match s.items.getLast? with
    | none => none
    | some back =>
      let w1 := s.base.deleteItem back
      let r := w1.createItem env first1
      CListBox.updatePositions
        { s with base := r.1, first := first1, items := some r.2 :: s.items.dropLast }
  else some s

/-- The bound `maxPossible` of `CListBox::moveToPos`. -/
def CListBox.maxPossible (s : CListBox) : Nat :=
  if s.totalSize > s.items.length then s.totalSize - s.items.length else 0

/-- `CListBox::moveToPos`. -/
def CListBox.moveToPos (env : Env) (s : CListBox) (which : Nat) : Option CListBox :=
  let newPos := min which s.maxPossible
  if subSz s.first newPos = 1 then CListBox.moveToPrev env s
  else if subSz newPos s.first = 1 then CListBox.moveToNext env s
  else if newPos ≠ s.first then CListBox.reset env { s with first := newPos }
  else some s

/-- `CListBox::scrollTo`. -/
def CListBox.scrollTo (env : Env) (s : CListBox) (which : Nat) : Option CListBox :=
  if s.first > which then CListBox.moveToPos env s which
  else if addSz s.first s.items.length ≤ which ∧ which < s.totalSize then
    CListBox.moveToPos env s (addSz (subSz which s.items.length) 1)
  else some s

/-- `CListBox::getPos`. -/
def CListBox.getPos (s : CListBox) : Nat := s.first

/-- `CListBox::getItems`. -/
def CListBox.getItems (s : CListBox) : List Ptr := s.items

/-- The calls a client can make on a `CListBox`. -/
inductive ListOp
  | resize (newSize : Nat)
  | reset
  | moveToPos (which : Nat)
  | scrollTo (which : Nat)
  | moveToNext
  | moveToPrev
deriving DecidableEq, Repr

/-- One client call. -/
def CListBox.step (env : Env) (s : CListBox) : ListOp → Option CListBox
  | ListOp.resize newSize => CListBox.resize env s newSize
  | ListOp.reset => CListBox.reset env s
  | ListOp.moveToPos which => CListBox.moveToPos env s which
  | ListOp.scrollTo which => CListBox.scrollTo env s which
  | ListOp.moveToNext => CListBox.moveToNext env s
  | ListOp.moveToPrev => CListBox.moveToPrev env s

/-- A sequence of client calls, first call first. -/
def CListBox.run (env : Env) (s : CListBox) : List ListOp → Option CListBox
  | [] => some s
  | op :: ops =>
    match CListBox.step env s op with
    | none => none
    | some s1 => CListBox.run env s1 ops

/-- The argument of a call is a `size_t`. -/
def ListOp.inRange : ListOp → Bool
  | ListOp.resize newSize => decide (newSize < SZ)
  | ListOp.moveToPos which => decide (which < SZ)
  | ListOp.scrollTo which => decide (which < SZ)
  | _ => true

/-- A well-formed `CListBox`: the counters are `size_t` values and no slot is null (the
constructor fills every slot before it returns). -/
def CListBox.WF (s : CListBox) : Prop :=
  s.first < SZ ∧ s.totalSize < SZ ∧ s.items.length < SZ ∧ s.items.all Option.isSome = true

instance (s : CListBox) : Decidable s.WF := by
  unfold CListBox.WF; infer_instance

/-- Starting at index `k`, every slot holds an item that `createItem` made for the slot's
index (the index advances as `current++` does). -/
def windowFrom (created : List (Nat × Obj)) : Nat → List Ptr → Bool
  | _, [] => true
  | _, none :: _ => false
  | k, some o :: rest => decide ((k, o) ∈ created) && windowFrom created ((k + 1) % SZ) rest

/-- Slot `i` of the window holds the item created for index `first + i`. -/
def CListBox.holdsWindow (s : CListBox) : Bool := windowFrom s.base.created s.first s.items

/-- A callback that makes object `k` for index `k`, used for concrete evaluations. -/
def env0 : Env :=
  { createObject := fun _ k => some k, makeShared := fun n => n, DISPOSE := 16,
    defActionsDef := 255, origin := ⟨0, 0⟩ }

/-- What an operation keeps and what it creates: the number of slots stays, and every index
newly passed to `createItem` is the index of a slot of the new window. -/
def CListBox.Advances (s s1 : CListBox) : Prop :=
  s1.items.length = s.items.length ∧
    ∃ fresh, s1.base.created = fresh ++ s.base.created ∧
      ∀ e ∈ fresh, ∃ i, i < s1.items.length ∧ e.1 = (s1.first + i) % SZ

/-! ## DropBoxList and CDropBox -/

/-- A `boost::logic::tribool`. -/
inductive Tribool
  | no
  | yes
  | indeterminate
deriving DecidableEq, Repr

/-- State of a `CDropBox` as far as its popup list acts on it: `selection` is the text of the
selection label, `hasCallback` tells whether `selectionCallback` is set and `callbackCalls`
lists the arguments it was called with, newest first. -/
structure CDropBox where
  selectedIndex : Nat
  selection : String
  hasCallback : Bool
  callbackCalls : List Nat
  itemNames : List String
  listVisibleSize : Nat
deriving DecidableEq, Repr

/-- State of a `DropBoxList`: `posX`, `posY`, `posW`, `posH` are the window rectangle,
`sliderW` the width of its slider, `labels` the texts of the labels (none: not created). -/
structure DropBoxList where
  owner : CDropBox
  itemNames : List String
  labels : List (Option String)
  mouseX : Int
  mouseY : Int
  visibleItems : Nat
  sliderPosition : Nat
  posX : Int
  posY : Int
  posW : Int
  posH : Int
  sliderW : Int
  closed : Bool
deriving DecidableEq, Repr

/-- `a - b` computed in `unsigned` (operands below `UINT`). -/
def subU (a b : Nat) : Nat := (a + UINT - b) % UINT

/-- Conversion of an `int` to `unsigned`. -/
def toUnsigned (i : Int) : Nat := (i % (UINT : Int)).toNat

/-- The starting position computed by the `DropBoxList` constructor from `items.size()`,
`selectedIndex` and `visibleItems`. -/
def DropBoxList.startingPosition (size selectedIndex visibleItems : Nat) : Nat :=
  if selectedIndex < visibleItems / 2 ∨ visibleItems ≥ size then 0
  else
    let startingPosition := subU selectedIndex (visibleItems / 2)
    if (startingPosition + visibleItems) % UINT > size then (subSz size visibleItems) % UINT
    else startingPosition

/-- The loop of `DropBoxList::setPosition` from counter `i` on (`fuel` iterations are left):
label `i` shows item `position + i`; writing past the end of `labels` is undefined. -/
def DropBoxList.setLabels (itemNames : List String) (position : Nat) :
    Nat → Nat → List (Option String) → Option (List (Option String))
  | 0, _, labels => some labels
  | fuel + 1, i, labels =>
    let labelIndex := (position + i) % UINT
    if h : labelIndex < itemNames.length then
      if i < labels.length then
        DropBoxList.setLabels itemNames position fuel (i + 1)
          (labels.set i (some (itemNames.get ⟨labelIndex, h⟩)))
      else none
    else some labels

/-- `DropBoxList::setPosition`. -/
def DropBoxList.setPosition (d : DropBoxList) (position : Nat) : Option DropBoxList :=
  match DropBoxList.setLabels d.itemNames position d.visibleItems 0 d.labels with
  | none => none
  | some labels => some { d with sliderPosition := position, labels := labels }

/-- `DropBoxList::DropBoxList`: the window rectangle has the size `w`, `h` of the background
image and is moved to `x`, `y`; `sliderW` is the width of the slider it creates. The
constructor does not initialise `mouseX` and `mouseY`: `mouseX0` and `mouseY0` stand for the
indeterminate values they hold until `mouseMoved` writes them. -/
def DropBoxList.ctor (owner : CDropBox) (w h sliderW : Int) (x y : Int) (mouseX0 mouseY0 : Int)
    (items : List String) (selectedIndex visibleItems : Nat) : Option DropBoxList :=
  let startingPosition := DropBoxList.startingPosition items.length selectedIndex visibleItems
  DropBoxList.setPosition
    { owner := owner, itemNames := items,
      labels := List.replicate (min (items.length % UINT) visibleItems) none,
      mouseX := mouseX0, mouseY := mouseY0, visibleItems := visibleItems, sliderPosition := 0,
      posX := x, posY := y, posW := w, posH := h, sliderW := sliderW, closed := false }
    startingPosition

/-- `DropBoxList::mouseMoved`. -/
def DropBoxList.mouseMoved (d : DropBoxList) (eventX eventY : Int) : DropBoxList :=
  { d with mouseX := eventX - d.posX, mouseY := eventY - d.posY }

/-- The index `sliderPosition + (y * visibleItems) / pos.h` of `DropBoxList::clickLeft`, in
`unsigned` arithmetic; a division by zero is undefined. -/
def DropBoxList.clickIndex (d : DropBoxList) : Option Nat :=
  let y : Int := max d.mouseY 0
  if toUnsigned d.posH = 0 then none
  else some ((d.sliderPosition + (toUnsigned y * d.visibleItems) % UINT / toUnsigned d.posH) % UINT)

/-- `DropBoxList::clickLeft`. -/
def DropBoxList.clickLeft (d : DropBoxList) (down : Tribool) (_previousState : Bool) :
    Option DropBoxList :=
  if down = Tribool.yes ∧ d.mouseX < d.posW - d.sliderW then
    match d.clickIndex with
    | none => none
    | some index =>
      if h : index < d.itemNames.length then
        some { d with
          owner := { d.owner with
            selectedIndex := index,
            selection := d.itemNames.get ⟨index, h⟩,
            callbackCalls :=
              if d.owner.hasCallback then index :: d.owner.callbackCalls
              else d.owner.callbackCalls },
          closed := true }
      else some { d with closed := true }
  else some d

/-- `CDropBox::CDropBox`. -/
def CDropBox.ctor (listVisibleSize : Nat) (items : List String) (selectedIndex : Nat) : CDropBox :=
  { selectedIndex := selectedIndex,
    selection := if h : selectedIndex < items.length then items.get ⟨selectedIndex, h⟩ else "",
    hasCallback := false, callbackCalls := [], itemNames := items,
    listVisibleSize := listVisibleSize }

/-- `CDropBox::clickLeft`: the popup list is opened when the button goes down; `mouseX0`
and `mouseY0` are the indeterminate values of the new list's uninitialised members. -/
def CDropBox.clickLeft (c : CDropBox) (w h sliderW : Int) (x y : Int) (mouseX0 mouseY0 : Int)
    (down : Tribool) : Option (Option DropBoxList) :=
  if down = Tribool.yes then
    (DropBoxList.ctor c w h sliderW x y mouseX0 mouseY0 c.itemNames c.selectedIndex
      c.listVisibleSize).map some
  else some none

/-- `CDropBox::setSelectionCallback`. -/
def CDropBox.setSelectionCallback (c : CDropBox) (isSet : Bool) : CDropBox :=
  { c with hasCallback := isSet }

/-- A well-formed `DropBoxList`: the counters are `unsigned` values, the mouse and the window
height are `int` values. -/
def DropBoxList.WF (d : DropBoxList) : Prop :=
  d.visibleItems < UINT ∧ d.sliderPosition < UINT ∧
    -2147483648 ≤ d.mouseY ∧ d.mouseY < 2147483648 ∧
    -2147483648 ≤ d.posH ∧ d.posH < 2147483648

instance (d : DropBoxList) : Decidable d.WF := by
  unfold DropBoxList.WF; infer_instance

/-- A list box showing items 0 and 1 of 5, used for concrete evaluations. -/
def sampleBox : CListBox :=
  { base :=
      { children := [0, 1], activated := [1, 0], defActions := 255, active := false,
        pos := ⟨0, 0⟩, created := [(1, 1), (0, 0)], effects := [] },
    first := 0, totalSize := 5, itemOffset := ⟨0, 1⟩, items := [some 0, some 1],
    slider := false }

/-- Slot `i` of the window holds an item that `createItem` made for index `first + i`
(the index taken in `size_t`), for every visible slot `i`. -/
def CListBox.SlotsMadeFor (s : CListBox) : Prop :=
  ∀ i, i < s.items.length →
    ∃ o, s.items.get? i = some (some o) ∧ ((s.first + i) % SZ, o) ∈ s.base.created

/-- Five item names, used for concrete evaluations. -/
def sampleNames : List String := ["a", "b", "c", "d", "e"]

/-- A popup list showing items 1 to 3 of `sampleNames` in a window 40 high, the mouse
over its second row, used for concrete evaluations. -/
def sampleDrop : DropBoxList :=
  { owner := CDropBox.ctor 3 sampleNames 1, itemNames := sampleNames,
    labels := [some "b", some "c", some "d"], mouseX := 5, mouseY := 20, visibleItems := 3,
    sliderPosition := 1, posX := 0, posY := 0, posW := 100, posH := 40, sliderW := 16,
    closed := false }

/-- The indices `current++` runs through in `reset`, starting at `k`, for `n` slots. -/
def windowIndices : Nat → Nat → List Nat
  | _, 0 => []
  | k, n + 1 => k :: windowIndices ((k + 1) % SZ) n

/-- A callback that returns the null pointer for every index; `createItem` then makes the
objects 100, 101, ... in its place. Used for concrete evaluations. -/
def envNull : Env :=
  { createObject := fun _ _ => none, makeShared := fun n => 100 + n, DISPOSE := 16,
    defActionsDef := 255, origin := ⟨0, 0⟩ }

/-! ## Theorems -/

/-! ### The loops of `updatePositions` and `reset` -/

theorem moveItems_isSome (off : Point) (items : List Ptr) :
    ∀ (p : Point) (effs : List Effect), items.all Option.isSome = true →
      ∃ r, CListBox.moveItems off p items effs = some r := by
  induction items with
  | nil => intro p effs _; exact ⟨effs, rfl⟩
  | cons a rest ih =>
    intro p effs h
    cases a with
    | none => simp at h
    | some o =>
      simp only [List.all_cons, Option.isSome_some, Bool.true_and] at h
      simpa [CListBox.moveItems] using ih (p.add off) (Effect.moveTo o p :: effs) h

theorem moveItems_all (off : Point) (items : List Ptr) :
    ∀ (p : Point) (effs r : List Effect), CListBox.moveItems off p items effs = some r →
      items.all Option.isSome = true := by
  induction items with
  | nil => intro p effs r _; rfl
  | cons a rest ih =>
    intro p effs r h
    cases a with
    | none => simp [CListBox.moveItems] at h
    | some o =>
      simp only [CListBox.moveItems] at h
      simpa using ih _ _ _ h

theorem updatePositions_eq {s s1 : CListBox} (h : s.updatePositions = some s1) :
    (∃ effs, s1 = { s with base := { s.base with effects := effs } }) ∧
      s.items.all Option.isSome = true := by
  unfold CListBox.updatePositions at h
  split at h
  · simp at h
  · rename_i effs heq
    simp only [Option.some.injEq] at h
    exact ⟨⟨_, h.symm⟩, moveItems_all _ _ _ _ _ heq⟩

theorem updatePositions_total (s : CListBox) (h : s.items.all Option.isSome = true) :
    ∃ effs, s.updatePositions = some { s with base := { s.base with effects := effs } } := by
  obtain ⟨r, hr⟩ := moveItems_isSome s.itemOffset s.items s.base.pos s.base.effects h
  unfold CListBox.updatePositions
  rw [hr]
  exact ⟨_, rfl⟩

theorem createItem_created (env : Env) (w : CObjectList) (k : Nat) :
    (w.createItem env k).1.created = (k, (w.createItem env k).2) :: w.created := by
  unfold CObjectList.createItem CObjectList.activateObj CObjectList.addChild
  simp only
  split <;> split <;> rfl

theorem deleteItem_created (w : CObjectList) (p : Ptr) :
    (w.deleteItem p).created = w.created := by
  cases p <;> rfl

theorem resetLoop_length (env : Env) (items : List Ptr) :
    ∀ (w : CObjectList) (k : Nat), (CListBox.resetLoop env w k items).2.length = items.length := by
  induction items with
  | nil => intro w k; rfl
  | cons a rest ih => intro w k; simp [CListBox.resetLoop, ih]

theorem resetLoop_all (env : Env) (items : List Ptr) :
    ∀ (w : CObjectList) (k : Nat),
      (CListBox.resetLoop env w k items).2.all Option.isSome = true := by
  induction items with
  | nil => intro w k; rfl
  | cons a rest ih => intro w k; simp [CListBox.resetLoop, ih]

theorem resetLoop_created (env : Env) (items : List Ptr) :
    ∀ (w : CObjectList) (k : Nat), k < SZ →
      ∃ fresh, (CListBox.resetLoop env w k items).1.created = fresh ++ w.created ∧
        ∀ e ∈ fresh, ∃ i, i < items.length ∧ e.1 = (k + i) % SZ := by
  induction items with
  | nil => intro w k _; exact ⟨[], rfl, by simp⟩
  | cons a rest ih =>
    intro w k hk
    obtain ⟨fresh, hc, hf⟩ := ih ((w.deleteItem a).createItem env k).1 ((k + 1) % SZ)
      (Nat.mod_lt _ (by decide))
    refine ⟨fresh ++ [(k, ((w.deleteItem a).createItem env k).2)], ?_, ?_⟩
    · simp only [CListBox.resetLoop]
      rw [hc, createItem_created, deleteItem_created]
      simp
    · intro e he
      rcases List.mem_append.mp he with h | h
      · obtain ⟨i, hi, hei⟩ := hf e h
        refine ⟨i + 1, by simpa using hi, ?_⟩
        rw [hei]; unfold SZ; omega
      · simp only [List.mem_singleton] at h
        refine ⟨0, by simp, ?_⟩
        rw [h]; simp only [Nat.add_zero]
        exact (Nat.mod_eq_of_lt hk).symm

theorem windowFrom_mono (c c1 : List (Nat × Obj)) (h : ∀ e ∈ c, e ∈ c1) (items : List Ptr) :
    ∀ k, windowFrom c k items = true → windowFrom c1 k items = true := by
  induction items with
  | nil => intro k _; rfl
  | cons a rest ih =>
    intro k hw
    cases a with
    | none => simp [windowFrom] at hw
    | some o =>
      simp only [windowFrom, Bool.and_eq_true, decide_eq_true_eq] at hw ⊢
      exact ⟨h _ hw.1, ih _ hw.2⟩

theorem resetLoop_window (env : Env) (items : List Ptr) :
    ∀ (w : CObjectList) (k : Nat), k < SZ →
      windowFrom (CListBox.resetLoop env w k items).1.created k
        (CListBox.resetLoop env w k items).2 = true := by
  induction items with
  | nil => intro w k _; rfl
  | cons a rest ih =>
    intro w k hk
    have hk1 : (k + 1) % SZ < SZ := Nat.mod_lt _ (by decide)
    obtain ⟨fresh, hc, _⟩ := resetLoop_created env rest
      ((w.deleteItem a).createItem env k).1 ((k + 1) % SZ) hk1
    simp only [CListBox.resetLoop, windowFrom, Bool.and_eq_true, decide_eq_true_eq]
    refine ⟨?_, ih _ _ hk1⟩
    rw [hc, createItem_created]
    simp

/-! ### The shape of the results of `reset`, `moveToNext` and `moveToPrev` -/

theorem reset_shape (env : Env) (s : CListBox) :
    ∃ effs, CListBox.reset env s = some
      { s with base := { (CListBox.resetLoop env s.base s.first s.items).1 with effects := effs },
               items := (CListBox.resetLoop env s.base s.first s.items).2 } := by
  unfold CListBox.reset
  exact updatePositions_total _ (resetLoop_all env s.items s.base s.first)

theorem moveToNext_idle (env : Env) (s : CListBox)
    (hg : ¬ addSz s.first s.items.length < s.totalSize) : CListBox.moveToNext env s = some s := by
  unfold CListBox.moveToNext
  rw [if_neg hg]

theorem moveToNext_shape (env : Env) (s : CListBox) (front : Ptr) (rest : List Ptr)
    (hi : s.items = front :: rest) (hall : rest.all Option.isSome = true)
    (hg : addSz s.first s.items.length < s.totalSize) :
    ∃ effs, CListBox.moveToNext env s = some
      { s with base := { ((s.base.deleteItem front).createItem env
                            (addSz (addSz s.first 1) rest.length)).1 with effects := effs },
               first := addSz s.first 1,
               items := rest ++ [some ((s.base.deleteItem front).createItem env
                            (addSz (addSz s.first 1) rest.length)).2] } := by
  unfold CListBox.moveToNext
  rw [if_pos hg]
  simp only
  rw [hi]
  simp only
  refine updatePositions_total _ ?_
  simp [hall]

theorem moveToNext_none (env : Env) (s : CListBox) (hi : s.items = [])
    (hg : addSz s.first s.items.length < s.totalSize) : CListBox.moveToNext env s = none := by
  unfold CListBox.moveToNext
  rw [if_pos hg]
  simp only
  rw [hi]

theorem moveToPrev_idle (env : Env) (s : CListBox) (hg : s.first = 0) :
    CListBox.moveToPrev env s = some s := by
  unfold CListBox.moveToPrev
  simp [hg]

theorem moveToPrev_shape (env : Env) (s : CListBox) (init : List Ptr) (back : Ptr)
    (hi : s.items = init ++ [back]) (hall : init.all Option.isSome = true)
    (hg : s.first ≠ 0) :
    ∃ effs, CListBox.moveToPrev env s = some
      { s with base := { ((s.base.deleteItem back).createItem env (s.first - 1)).1 with
                            effects := effs },
               first := s.first - 1,
               items := some ((s.base.deleteItem back).createItem env (s.first - 1)).2 :: init } := by
  unfold CListBox.moveToPrev
  rw [if_pos hg]
  simp only
  rw [hi]
  simp only [List.getLast?_append, List.getLast?_singleton, List.dropLast_concat]
  simp only [Option.or]
  refine updatePositions_total _ ?_
  simp [hall]

theorem moveToPrev_none (env : Env) (s : CListBox) (hi : s.items = [])
    (hg : s.first ≠ 0) : CListBox.moveToPrev env s = none := by
  unfold CListBox.moveToPrev
  rw [if_pos hg]
  simp only
  rw [hi]
  rfl

/-! ### What every operation keeps -/

theorem windowFrom_append (c : List (Nat × Obj)) (xs ys : List Ptr) :
    ∀ k, k < SZ →
      windowFrom c k (xs ++ ys) = (windowFrom c k xs && windowFrom c ((k + xs.length) % SZ) ys) := by
  induction xs with
  | nil => intro k hk; simp [windowFrom, Nat.mod_eq_of_lt hk]
  | cons a rest ih =>
    intro k hk
    cases a with
    | none => simp [windowFrom]
    | some o =>
      have h1 : ((k + 1) % SZ + rest.length) % SZ = (k + (rest.length + 1)) % SZ := by
        unfold SZ; omega
      simp only [List.cons_append, windowFrom, List.length_cons, List.append_eq]
      rw [ih _ (Nat.mod_lt _ (by decide)), h1, Bool.and_assoc]

theorem advances_refl (s : CListBox) : s.Advances s :=
  ⟨rfl, [], rfl, by simp⟩

/-- What `reset` returns: position and `totalSize` stay, every slot is filled, and slot `i`
holds the item just created for index `first + i`. -/
theorem reset_sound (env : Env) (s s1 : CListBox) (hf : s.first < SZ)
    (h : CListBox.reset env s = some s1) :
    s1.first = s.first ∧ s1.totalSize = s.totalSize ∧ s1.items.all Option.isSome = true ∧
      s.Advances s1 ∧ s1.holdsWindow = true := by
  obtain ⟨effs, he⟩ := reset_shape env s
  rw [he] at h
  simp only [Option.some.injEq] at h
  subst h
  refine ⟨rfl, rfl, resetLoop_all env _ _ _, ⟨resetLoop_length env _ _ _, ?_⟩, ?_⟩
  · obtain ⟨fresh, hc, hfr⟩ := resetLoop_created env s.items s.base s.first hf
    refine ⟨fresh, hc, ?_⟩
    intro e hmem
    obtain ⟨i, hi, hei⟩ := hfr e hmem
    exact ⟨i, by simpa [resetLoop_length] using hi, hei⟩
  · exact resetLoop_window env s.items s.base s.first hf

/-- What `moveToNext` returns: under its guard the position advances by one and one item is
created for the last slot; otherwise the state is returned as it is. -/
theorem moveToNext_sound (env : Env) (s s1 : CListBox) (hwf : s.WF)
    (h : CListBox.moveToNext env s = some s1) :
    s1.WF ∧ s.Advances s1 ∧ s1.totalSize = s.totalSize ∧
      (s.holdsWindow = true → s1.holdsWindow = true) ∧
      ((addSz s.first s.items.length < s.totalSize ∧ s1.first = addSz s.first 1) ∨
        (¬ addSz s.first s.items.length < s.totalSize ∧ s1 = s)) := by
  obtain ⟨hf, ht, hn, hall⟩ := hwf
  by_cases hg : addSz s.first s.items.length < s.totalSize
  · cases hi : s.items with
    | nil => rw [moveToNext_none env s hi hg] at h; simp at h
    | cons front rest =>
      have hall1 : rest.all Option.isSome = true := by
        rw [hi] at hall; simp only [List.all_cons, Bool.and_eq_true] at hall; exact hall.2
      obtain ⟨effs, he⟩ := moveToNext_shape env s front rest hi hall1 hg
      rw [he] at h
      simp only [Option.some.injEq] at h
      subst h
      have hlen : (rest ++ [some ((s.base.deleteItem front).createItem env
          (addSz (addSz s.first 1) rest.length)).2]).length = (front :: rest).length := by simp
      have hf1 : addSz s.first 1 < SZ := Nat.mod_lt _ (by decide)
      refine ⟨⟨hf1, ht, ?_, ?_⟩, ⟨?_, ?_⟩, rfl, ?_, Or.inl ⟨by rw [← hi]; exact hg, rfl⟩⟩
      · simp only [hlen]; rw [← hi]; exact hn
      · simp [hall1]
      · simp only [hlen, hi]
      · refine ⟨[(addSz (addSz s.first 1) rest.length,
          ((s.base.deleteItem front).createItem env (addSz (addSz s.first 1) rest.length)).2)],
          ?_, ?_⟩
        · simp only [createItem_created, deleteItem_created]; rfl
        · intro e hmem
          simp only [List.mem_singleton] at hmem
          refine ⟨rest.length, by simp, ?_⟩
          rw [hmem]; rfl
      · intro hw
        simp only [CListBox.holdsWindow] at hw ⊢
        rw [hi] at hw
        cases front with
        | none => simp [windowFrom] at hw
        | some o =>
          simp only [windowFrom, Bool.and_eq_true, decide_eq_true_eq] at hw
          rw [windowFrom_append _ _ _ _ hf1]
          simp only [Bool.and_eq_true]
          constructor
          · refine windowFrom_mono s.base.created _ ?_ rest _ hw.2
            intro e he1
            simp only [createItem_created, deleteItem_created]
            exact List.mem_cons_of_mem _ he1
          · simp only [windowFrom, Bool.and_true, decide_eq_true_eq, createItem_created]
            exact List.mem_cons_self _ _
  · rw [moveToNext_idle env s hg] at h
    simp only [Option.some.injEq] at h
    subst h
    exact ⟨⟨hf, ht, hn, hall⟩, advances_refl _, rfl, fun hw => hw, Or.inr ⟨hg, rfl⟩⟩

theorem moveToNext_total (env : Env) (s : CListBox) (hwf : s.WF) (hn : 0 < s.items.length) :
    ∃ s1, CListBox.moveToNext env s = some s1 := by
  by_cases hg : addSz s.first s.items.length < s.totalSize
  · cases hi : s.items with
    | nil => rw [hi] at hn; simp at hn
    | cons front rest =>
      have hall1 : rest.all Option.isSome = true := by
        have hall := hwf.2.2.2
        rw [hi] at hall; simp only [List.all_cons, Bool.and_eq_true] at hall; exact hall.2
      obtain ⟨effs, he⟩ := moveToNext_shape env s front rest hi hall1 hg
      exact ⟨_, he⟩
  · exact ⟨s, moveToNext_idle env s hg⟩

/-- What `moveToPrev` returns: under its guard the position goes back by one and one item is
created for the first slot; otherwise the state is returned as it is. -/
theorem moveToPrev_sound (env : Env) (s s1 : CListBox) (hwf : s.WF)
    (h : CListBox.moveToPrev env s = some s1) :
    s1.WF ∧ s.Advances s1 ∧ s1.totalSize = s.totalSize ∧
      (s.holdsWindow = true → s1.holdsWindow = true) ∧
      ((s.first ≠ 0 ∧ s1.first = s.first - 1) ∨ (s.first = 0 ∧ s1 = s)) := by
  obtain ⟨hf, ht, hn, hall⟩ := hwf
  by_cases hg : s.first = 0
  · rw [moveToPrev_idle env s hg] at h
    simp only [Option.some.injEq] at h
    subst h
    exact ⟨⟨hf, ht, hn, hall⟩, advances_refl _, rfl, fun hw => hw, Or.inr ⟨hg, rfl⟩⟩
  · rcases List.eq_nil_or_concat s.items with hi | ⟨init, back, hi⟩
    · rw [moveToPrev_none env s hi hg] at h; simp at h
    · rw [List.concat_eq_append] at hi
      have hall1 : init.all Option.isSome = true := by
        rw [hi] at hall; simp only [List.all_append, Bool.and_eq_true] at hall; exact hall.1
      obtain ⟨effs, he⟩ := moveToPrev_shape env s init back hi hall1 hg
      rw [he] at h
      simp only [Option.some.injEq] at h
      subst h
      have hlen : s.items.length = init.length + 1 := by rw [hi]; simp
      have hf1 : s.first - 1 < SZ := by omega
      refine ⟨⟨hf1, ht, ?_, ?_⟩, ⟨?_, ?_⟩, rfl, ?_, Or.inl ⟨hg, rfl⟩⟩
      · simp only [List.length_cons]; omega
      · simp [hall1]
      · simp only [List.length_cons]; omega
      · refine ⟨[(s.first - 1, ((s.base.deleteItem back).createItem env (s.first - 1)).2)],
          ?_, ?_⟩
        · simp only [createItem_created, deleteItem_created]; rfl
        · intro e hmem
          simp only [List.mem_singleton] at hmem
          refine ⟨0, by simp, ?_⟩
          rw [hmem]
          simp only [Nat.add_zero]
          exact (Nat.mod_eq_of_lt hf1).symm
      · intro hw
        simp only [CListBox.holdsWindow] at hw ⊢
        rw [hi, windowFrom_append _ _ _ _ hf] at hw
        simp only [Bool.and_eq_true] at hw
        have hback : (s.first - 1 + 1) % SZ = s.first := by
          have : s.first - 1 + 1 = s.first := by omega
          rw [this]; exact Nat.mod_eq_of_lt hf
        simp only [windowFrom, Bool.and_eq_true, decide_eq_true_eq, createItem_created, hback]
        refine ⟨List.mem_cons_self _ _, ?_⟩
        refine windowFrom_mono s.base.created _ ?_ init _ hw.1
        intro e he1
        simp only [deleteItem_created]
        exact List.mem_cons_of_mem _ he1

theorem moveToPrev_total (env : Env) (s : CListBox) (hwf : s.WF) (hn : 0 < s.items.length) :
    ∃ s1, CListBox.moveToPrev env s = some s1 := by
  by_cases hg : s.first = 0
  · exact ⟨s, moveToPrev_idle env s hg⟩
  · rcases List.eq_nil_or_concat s.items with hi | ⟨init, back, hi⟩
    · rw [hi] at hn; simp at hn
    · rw [List.concat_eq_append] at hi
      have hall1 : init.all Option.isSome = true := by
        have hall := hwf.2.2.2
        rw [hi] at hall; simp only [List.all_append, Bool.and_eq_true] at hall; exact hall.1
      obtain ⟨effs, he⟩ := moveToPrev_shape env s init back hi hall1 hg
      exact ⟨_, he⟩

theorem reset_at_sound (env : Env) (s s1 : CListBox) (hwf : s.WF) (p : Nat) (hp : p < SZ)
    (h : CListBox.reset env { s with first := p } = some s1) :
    s1.WF ∧ s.Advances s1 ∧ s1.totalSize = s.totalSize ∧ s1.first = p ∧
      s1.holdsWindow = true := by
  obtain ⟨h1, h2, h3, h4, h5⟩ := reset_sound env { s with first := p } s1 hp h
  obtain ⟨hlen, hfr⟩ := h4
  simp only at h1 h2 hlen hfr
  refine ⟨⟨by rw [h1]; exact hp, by rw [h2]; exact hwf.2.1, by rw [hlen]; exact hwf.2.2.1, h3⟩,
    ⟨hlen, hfr⟩, h2, h1, h5⟩

theorem moveToPos_sound (env : Env) (s s1 : CListBox) (hwf : s.WF) (which : Nat)
    (hw : which < SZ) (h : CListBox.moveToPos env s which = some s1) :
    s1.WF ∧ s.Advances s1 ∧ s1.totalSize = s.totalSize := by
  unfold CListBox.moveToPos at h
  simp only at h
  split at h
  · obtain ⟨a, b, c, _⟩ := moveToPrev_sound env s s1 hwf h
    exact ⟨a, b, c⟩
  · split at h
    · obtain ⟨a, b, c, _⟩ := moveToNext_sound env s s1 hwf h
      exact ⟨a, b, c⟩
    · split at h
      · have hp : min which s.maxPossible < SZ := lt_of_le_of_lt (Nat.min_le_left _ _) hw
        obtain ⟨a, b, c, _⟩ := reset_at_sound env s s1 hwf _ hp h
        exact ⟨a, b, c⟩
      · simp only [Option.some.injEq] at h
        subst h
        exact ⟨hwf, advances_refl _, rfl⟩

theorem moveToPos_total (env : Env) (s : CListBox) (hwf : s.WF) (hn : 0 < s.items.length)
    (which : Nat) : ∃ s1, CListBox.moveToPos env s which = some s1 := by
  unfold CListBox.moveToPos
  simp only
  split
  · exact moveToPrev_total env s hwf hn
  · split
    · exact moveToNext_total env s hwf hn
    · split
      · obtain ⟨effs, he⟩ := reset_shape env { s with first := min which s.maxPossible }
        exact ⟨_, he⟩
      · exact ⟨s, rfl⟩

theorem scrollTo_sound (env : Env) (s s1 : CListBox) (hwf : s.WF) (which : Nat)
    (h : CListBox.scrollTo env s which = some s1) :
    s1.WF ∧ s.Advances s1 ∧ s1.totalSize = s.totalSize := by
  unfold CListBox.scrollTo at h
  split at h
  · rename_i hlt
    exact moveToPos_sound env s s1 hwf which (lt_trans hlt hwf.1) h
  · split at h
    · exact moveToPos_sound env s s1 hwf _ (Nat.mod_lt _ (by decide)) h
    · simp only [Option.some.injEq] at h
      subst h
      exact ⟨hwf, advances_refl _, rfl⟩

theorem scrollTo_total (env : Env) (s : CListBox) (hwf : s.WF) (hn : 0 < s.items.length)
    (which : Nat) : ∃ s1, CListBox.scrollTo env s which = some s1 := by
  unfold CListBox.scrollTo
  split
  · exact moveToPos_total env s hwf hn which
  · split
    · exact moveToPos_total env s hwf hn _
    · exact ⟨s, rfl⟩

theorem resize_sound (env : Env) (s s1 : CListBox) (hwf : s.WF) (newSize : Nat)
    (hm : newSize < SZ) (h : CListBox.resize env s newSize = some s1) :
    s1.WF ∧ s.Advances s1 ∧ s1.totalSize = newSize ∧ s1.first = s.first := by
  unfold CListBox.resize at h
  simp only at h
  split at h
  · have hr := fun hf => reset_sound env _ s1 hf h
    obtain ⟨h1, h2, h3, h4, _⟩ := hr hwf.1
    obtain ⟨hlen, hfr⟩ := h4
    simp only at h1 h2 hlen hfr
    exact ⟨⟨by rw [h1]; exact hwf.1, by rw [h2]; exact hm, by rw [hlen]; exact hwf.2.2.1, h3⟩,
      ⟨hlen, hfr⟩, h2, h1⟩
  · have hr := fun hf => reset_sound env _ s1 hf h
    obtain ⟨h1, h2, h3, h4, _⟩ := hr hwf.1
    obtain ⟨hlen, hfr⟩ := h4
    simp only at h1 h2 hlen hfr
    exact ⟨⟨by rw [h1]; exact hwf.1, by rw [h2]; exact hm, by rw [hlen]; exact hwf.2.2.1, h3⟩,
      ⟨hlen, hfr⟩, h2, h1⟩

/-- Every call keeps the state well-formed and the number of slots, and creates items only
for indices of the window it leaves; only `resize` changes `totalSize`. -/
theorem step_sound (env : Env) (s s1 : CListBox) (hwf : s.WF) (op : ListOp)
    (hop : op.inRange = true) (h : CListBox.step env s op = some s1) :
    s1.WF ∧ s.Advances s1 ∧
      (s1.totalSize = s.totalSize ∨ ∃ m, op = ListOp.resize m ∧ s1.totalSize = m) := by
  cases op with
  | resize m =>
    simp only [ListOp.inRange, decide_eq_true_eq] at hop
    obtain ⟨a, b, c, _⟩ := resize_sound env s s1 hwf m hop h
    exact ⟨a, b, Or.inr ⟨m, rfl, c⟩⟩
  | reset =>
    obtain ⟨a, b, c, _⟩ := reset_at_sound env s s1 hwf s.first hwf.1 h
    exact ⟨a, b, Or.inl c⟩
  | moveToPos which =>
    simp only [ListOp.inRange, decide_eq_true_eq] at hop
    obtain ⟨a, b, c⟩ := moveToPos_sound env s s1 hwf which hop h
    exact ⟨a, b, Or.inl c⟩
  | scrollTo which =>
    obtain ⟨a, b, c⟩ := scrollTo_sound env s s1 hwf which h
    exact ⟨a, b, Or.inl c⟩
  | moveToNext =>
    obtain ⟨a, b, c, _⟩ := moveToNext_sound env s s1 hwf h
    exact ⟨a, b, Or.inl c⟩
  | moveToPrev =>
    obtain ⟨a, b, c, _⟩ := moveToPrev_sound env s s1 hwf h
    exact ⟨a, b, Or.inl c⟩

theorem reset_total (env : Env) (s : CListBox) : ∃ s1, CListBox.reset env s = some s1 := by
  obtain ⟨effs, he⟩ := reset_shape env s
  exact ⟨_, he⟩

theorem reset_fresh_sound (env : Env) (init : CListBox) (V T I : Nat)
    (hV : V < SZ) (hT : T < SZ) (hI : I < SZ)
    (h1 : init.first = I) (h2 : init.totalSize = T) (h3 : init.items.length = V)
    (h4 : init.base.created = []) :
    ∃ s0, CListBox.reset env init = some s0 ∧ s0.WF ∧
      s0.items.length = V ∧ s0.totalSize = T ∧ s0.first = I ∧ s0.holdsWindow = true ∧
      (∀ e ∈ s0.base.created, ∃ i, i < V ∧ e.1 = (I + i) % SZ) := by
  obtain ⟨s0, he⟩ := reset_total env init
  refine ⟨s0, he, ?_⟩
  obtain ⟨a1, a2, a3, a4, a5⟩ := reset_sound env init s0 (by rw [h1]; exact hI) he
  obtain ⟨hlen, fresh, hc, hfr⟩ := a4
  rw [h1] at a1
  rw [h2] at a2
  rw [h3] at hlen
  refine ⟨⟨by rw [a1]; exact hI, by rw [a2]; exact hT, by rw [hlen]; exact hV, a3⟩,
    hlen, a2, a1, a5, ?_⟩
  intro e hmem
  rw [hc, h4, List.append_nil] at hmem
  obtain ⟨i, hi, hei⟩ := hfr e hmem
  exact ⟨i, by rw [hlen] at hi; exact hi, by rw [hei, a1]⟩

/-- The constructor returns a well-formed list box with `VisibleSize` slots, each holding
the item created for its index. -/
theorem ctor_sound (env : Env) (Pos ItemOffset : Point) (V T I : Nat) (Slider : Int)
    (hV : V < SZ) (hT : T < SZ) (hI : I < SZ) :
    ∃ s0, CListBox.ctor env Pos ItemOffset V T I Slider = some s0 ∧ s0.WF ∧
      s0.items.length = V ∧ s0.totalSize = T ∧ s0.first = I ∧ s0.holdsWindow = true ∧
      (∀ e ∈ s0.base.created, ∃ i, i < V ∧ e.1 = (I + i) % SZ) := by
  unfold CListBox.ctor
  simp only
  refine reset_fresh_sound env _ V T I hV hT hI rfl rfl (by simp) ?_
  simp only
  split <;> rfl

/-! ### C1 and C2: the size of the window and the indices passed to `createObject` -/

theorem step_total (env : Env) (s : CListBox) (hwf : s.WF) (hn : 0 < s.items.length)
    (op : ListOp) : ∃ s1, CListBox.step env s op = some s1 := by
  cases op with
  | resize m => exact reset_total env _
  | reset => exact reset_total env s
  | moveToPos which => exact moveToPos_total env s hwf hn which
  | scrollTo which => exact scrollTo_total env s hwf hn which
  | moveToNext => exact moveToNext_total env s hwf hn
  | moveToPrev => exact moveToPrev_total env s hwf hn

/-- Along a sequence of calls the number of slots stays, and `totalSize` stays at least `V`
when it starts so and no `resize` goes below `V`. -/
theorem run_sound (env : Env) (V : Nat) (ops : List ListOp) :
    ∀ (s0 s : CListBox), s0.WF → s0.items.length = V →
      (∀ op ∈ ops, ListOp.inRange op = true) → CListBox.run env s0 ops = some s →
      s.WF ∧ s.items.length = V ∧
        (V ≤ s0.totalSize → (∀ m, ListOp.resize m ∈ ops → V ≤ m) → V ≤ s.totalSize) := by
  induction ops with
  | nil =>
    intro s0 s hwf hlen _ hrun
    simp only [CListBox.run, Option.some.injEq] at hrun
    subst hrun
    exact ⟨hwf, hlen, fun h _ => h⟩
  | cons op ops ih =>
    intro s0 s hwf hlen hops hrun
    simp only [CListBox.run] at hrun
    cases hstep : CListBox.step env s0 op with
    | none => rw [hstep] at hrun; simp at hrun
    | some s1 =>
      rw [hstep] at hrun
      simp only at hrun
      obtain ⟨hwf1, hadv, htot⟩ :=
        step_sound env s0 s1 hwf op (hops op (List.mem_cons_self _ _)) hstep
      obtain ⟨a, b, c⟩ := ih s1 s hwf1 (by rw [hadv.1, hlen])
        (fun o ho => hops o (List.mem_cons_of_mem _ ho)) hrun
      refine ⟨a, b, fun hV hres => c ?_ (fun m hm => hres m (List.mem_cons_of_mem _ hm))⟩
      rcases htot with h | ⟨m, hm, h⟩
      · rw [h]; exact hV
      · rw [h]; exact hres m (by rw [hm]; exact List.mem_cons_self _ _)

theorem run_total (env : Env) (ops : List ListOp) :
    ∀ (s0 : CListBox), s0.WF → 0 < s0.items.length →
      (∀ op ∈ ops, ListOp.inRange op = true) → ∃ s, CListBox.run env s0 ops = some s := by
  induction ops with
  | nil => intro s0 _ _ _; exact ⟨s0, rfl⟩
  | cons op ops ih =>
    intro s0 hwf hn hops
    obtain ⟨s1, hstep⟩ := step_total env s0 hwf hn op
    obtain ⟨hwf1, hadv, _⟩ :=
      step_sound env s0 s1 hwf op (hops op (List.mem_cons_self _ _)) hstep
    obtain ⟨s, hs⟩ := ih s1 hwf1 (by rw [hadv.1]; exact hn)
      (fun o ho => hops o (List.mem_cons_of_mem _ ho))
    exact ⟨s, by simp only [CListBox.run, hstep]; exact hs⟩

/-- C1, as the code has it: the constructor returns a list box, and in every state reached
from it by resize, reset, moveToPos, scrollTo, moveToNext and moveToPrev the number of visible
slots `items.size()` is the constructor's `VisibleSize`, whatever `totalSize` is. Hence
`items.size() <= totalSize` holds when `VisibleSize <= TotalSize` and every `resize` argument
is at least `VisibleSize`. With at least one slot every sequence of calls reaches a state. -/
theorem CListBox.visible_size_constant (env : Env) (Pos ItemOffset : Point) (V T I : Nat)
    (Slider : Int) (hV : V < SZ) (hT : T < SZ) (hI : I < SZ) :
    ∃ s0, CListBox.ctor env Pos ItemOffset V T I Slider = some s0 ∧
      ∀ ops : List ListOp, (∀ op ∈ ops, ListOp.inRange op = true) →
        (0 < V → ∃ s, CListBox.run env s0 ops = some s) ∧
        ∀ s, CListBox.run env s0 ops = some s →
          s.items.length = V ∧
            (V ≤ T → (∀ m, ListOp.resize m ∈ ops → V ≤ m) → s.items.length ≤ s.totalSize) := by
  obtain ⟨s0, h0, hwf, hlen, htot, _⟩ := ctor_sound env Pos ItemOffset V T I Slider hV hT hI
  refine ⟨s0, h0, fun ops hops => ⟨fun hpos => ?_, fun s hrun => ?_⟩⟩
  · exact run_total env ops s0 hwf (by rw [hlen]; exact hpos) hops
  · obtain ⟨_, b, c⟩ := run_sound env V ops s0 s hwf hlen hops hrun
    refine ⟨b, fun h1 h2 => ?_⟩
    rw [b]
    exact c (by rw [htot]; exact h1) h2

/-- C1, witness: the statement at `VisibleSize = 2`, `TotalSize = 5`, `InitialPos = 0`. -/
theorem CListBox.visible_size_constant_witness :
    ∃ s0, CListBox.ctor env0 ⟨0, 0⟩ ⟨0, 1⟩ 2 5 0 0 = some s0 ∧
      ∀ ops : List ListOp, (∀ op ∈ ops, ListOp.inRange op = true) →
        (0 < 2 → ∃ s, CListBox.run env0 s0 ops = some s) ∧
        ∀ s, CListBox.run env0 s0 ops = some s →
          s.items.length = 2 ∧
            (2 ≤ 5 → (∀ m, ListOp.resize m ∈ ops → 2 ≤ m) → s.items.length ≤ s.totalSize) :=
  CListBox.visible_size_constant env0 ⟨0, 0⟩ ⟨0, 1⟩ 2 5 0 0 (by decide) (by decide) (by decide)

/-- C1, counterexample: the constructor with `VisibleSize = 5`, `TotalSize = 3`,
`InitialPos = 0` yields a list box with 5 visible slots and `totalSize = 3`, so
`items.size() <= totalSize` is false in a state reachable from the constructor. -/
theorem CListBox.visible_size_exceeds_total :
    (CListBox.ctor env0 ⟨0, 0⟩ ⟨0, 1⟩ 5 3 0 0).map
        (fun s => (s.items.length, s.totalSize, decide (s.items.length ≤ s.totalSize)))
      = some (5, 3, false) := by
  decide

/-- The indices of `windowIndices k n` are `k + i` taken in `size_t`, for `i < n`. -/
theorem mem_windowIndices (n : Nat) :
    ∀ k x, k < SZ → (x ∈ windowIndices k n ↔ ∃ i, i < n ∧ x = (k + i) % SZ) := by
  induction n with
  | zero => intro k x _; simp [windowIndices]
  | succ n ih =>
    intro k x hk
    simp only [windowIndices, List.mem_cons, ih ((k + 1) % SZ) x (Nat.mod_lt _ (by decide))]
    constructor
    · rintro (h | ⟨i, hi, hx⟩)
      · exact ⟨0, by omega, by rw [h]; simp [Nat.mod_eq_of_lt hk]⟩
      · refine ⟨i + 1, by omega, ?_⟩
        rw [hx]; unfold SZ; omega
    · rintro ⟨i, hi, hx⟩
      cases i with
      | zero => left; rw [hx]; simp [Nat.mod_eq_of_lt hk]
      | succ i =>
        right
        refine ⟨i, by omega, ?_⟩
        rw [hx]; unfold SZ; omega

/-- The indices of a window are all below `T` exactly when the window is empty or ends at or
before `T`. -/
theorem windowIndices_below (k n T : Nat) (hk : k < SZ) (hT : T < SZ) (hn : n < SZ) :
    (∀ x ∈ windowIndices k n, x < T) ↔ (n = 0 ∨ k + n ≤ T) := by
  constructor
  · intro h
    by_cases h0 : n = 0
    · exact Or.inl h0
    · right
      by_contra hgt
      by_cases hw : k + n ≤ SZ
      · have := h ((k + (n - 1)) % SZ) ((mem_windowIndices n k _ hk).mpr ⟨n - 1, by omega, rfl⟩)
        unfold SZ at *; omega
      · have := h ((k + (SZ - 1 - k)) % SZ)
          ((mem_windowIndices n k _ hk).mpr ⟨SZ - 1 - k, by unfold SZ at *; omega, rfl⟩)
        unfold SZ at *; omega
  · intro h x hx
    obtain ⟨i, hi, hxi⟩ := (mem_windowIndices n k x hk).mp hx
    rw [hxi]
    unfold SZ at *; omega

/-- The loop of `reset` passes exactly the indices of the window to `createItem`. -/
theorem resetLoop_indices (env : Env) (items : List Ptr) :
    ∀ (w : CObjectList) (k : Nat),
      ∃ fresh, (CListBox.resetLoop env w k items).1.created = fresh ++ w.created ∧
        fresh.map Prod.fst = (windowIndices k items.length).reverse := by
  induction items with
  | nil => intro w k; exact ⟨[], rfl, rfl⟩
  | cons a rest ih =>
    intro w k
    obtain ⟨fresh, hc, hf⟩ := ih ((w.deleteItem a).createItem env k).1 ((k + 1) % SZ)
    refine ⟨fresh ++ [(k, ((w.deleteItem a).createItem env k).2)], ?_, ?_⟩
    · simp only [CListBox.resetLoop]
      rw [hc, createItem_created, deleteItem_created]
      simp
    · simp [windowIndices, hf]

/-- What `reset` passes to `createItem`: exactly the indices of its window. -/
theorem reset_fresh (env : Env) (s : CListBox) :
    ∃ s1 fresh, CListBox.reset env s = some s1 ∧ s1.base.created = fresh ++ s.base.created ∧
      fresh.map Prod.fst = (windowIndices s1.first s1.items.length).reverse ∧
      s1.first = s.first ∧ s1.totalSize = s.totalSize ∧ s1.items.length = s.items.length := by
  obtain ⟨effs, he⟩ := reset_shape env s
  obtain ⟨fresh, hc, hf⟩ := resetLoop_indices env s.items s.base s.first
  refine ⟨_, fresh, he, hc, ?_, rfl, rfl, resetLoop_length env _ _ _⟩
  simp only [resetLoop_length]
  exact hf

/-- What `moveToNext` passes to `createItem`: nothing, or the one index
`first + items.size()` that its guard found below `totalSize`. -/
theorem moveToNext_fresh (env : Env) (s : CListBox) (hwf : s.WF) (hn : 0 < s.items.length) :
    ∃ s1 fresh, CListBox.moveToNext env s = some s1 ∧
      s1.base.created = fresh ++ s.base.created ∧ s1.totalSize = s.totalSize ∧
      (fresh = [] ∨
        ∃ o, fresh = [(addSz s.first s.items.length, o)] ∧
          addSz s.first s.items.length < s.totalSize) := by
  by_cases hg : addSz s.first s.items.length < s.totalSize
  · obtain ⟨front, rest, hi⟩ := List.exists_cons_of_length_pos hn
    have hall1 : rest.all Option.isSome = true := by
      have hall := hwf.2.2.2
      rw [hi] at hall; simp only [List.all_cons, Bool.and_eq_true] at hall; exact hall.2
    obtain ⟨effs, he⟩ := moveToNext_shape env s front rest hi hall1 hg
    have hidx : addSz (addSz s.first 1) rest.length = addSz s.first s.items.length := by
      rw [hi]; simp only [List.length_cons]; unfold addSz SZ; omega
    refine ⟨_, [(addSz (addSz s.first 1) rest.length,
      ((s.base.deleteItem front).createItem env (addSz (addSz s.first 1) rest.length)).2)],
      he, ?_, rfl, Or.inr ⟨((s.base.deleteItem front).createItem env
        (addSz (addSz s.first 1) rest.length)).2, ?_, hg⟩⟩
    · simp only [createItem_created, deleteItem_created]; rfl
    · rw [hidx]
  · exact ⟨s, [], moveToNext_idle env s hg, rfl, rfl, Or.inl rfl⟩

/-- What `moveToPrev` passes to `createItem`: nothing when `first` is 0, and else the one
index `first - 1`, the new position. -/
theorem moveToPrev_fresh (env : Env) (s : CListBox) (hwf : s.WF) (hn : 0 < s.items.length) :
    ∃ s1 fresh, CListBox.moveToPrev env s = some s1 ∧
      s1.base.created = fresh ++ s.base.created ∧ s1.totalSize = s.totalSize ∧
      ((s.first = 0 ∧ fresh = []) ∨
        (s.first ≠ 0 ∧ s1.first = s.first - 1 ∧ ∃ o, fresh = [(s1.first, o)])) := by
  by_cases hg : s.first = 0
  · exact ⟨s, [], moveToPrev_idle env s hg, rfl, rfl, Or.inl ⟨hg, rfl⟩⟩
  · rcases List.eq_nil_or_concat s.items with hi | ⟨init, back, hi⟩
    · rw [hi] at hn; simp at hn
    · rw [List.concat_eq_append] at hi
      have hall1 : init.all Option.isSome = true := by
        have hall := hwf.2.2.2
        rw [hi] at hall; simp only [List.all_append, Bool.and_eq_true] at hall; exact hall.1
      obtain ⟨effs, he⟩ := moveToPrev_shape env s init back hi hall1 hg
      refine ⟨_, [(s.first - 1, ((s.base.deleteItem back).createItem env (s.first - 1)).2)],
        he, ?_, rfl, Or.inr ⟨hg, rfl, _, rfl⟩⟩
      simp only [createItem_created, deleteItem_created]; rfl

/-- What any call passes to `createItem`: nothing, the one index checked by the guard of
`moveToNext`, the new position alone, or exactly the indices of the window it leaves. -/
theorem step_fresh (env : Env) (s : CListBox) (op : ListOp) (hwf : s.WF)
    (hn : 0 < s.items.length) :
    ∃ s1 fresh, CListBox.step env s op = some s1 ∧
      s1.base.created = fresh ++ s.base.created ∧
      (fresh = [] ∨
        (∃ o, fresh = [(addSz s.first s.items.length, o)] ∧
          addSz s.first s.items.length < s1.totalSize) ∨
        (∃ o, fresh = [(s1.first, o)]) ∨
        fresh.map Prod.fst = (windowIndices s1.first s1.items.length).reverse) := by
  have hnext : ∃ s1 fresh, CListBox.moveToNext env s = some s1 ∧
      s1.base.created = fresh ++ s.base.created ∧
      (fresh = [] ∨
        (∃ o, fresh = [(addSz s.first s.items.length, o)] ∧
          addSz s.first s.items.length < s1.totalSize) ∨
        (∃ o, fresh = [(s1.first, o)]) ∨
        fresh.map Prod.fst = (windowIndices s1.first s1.items.length).reverse) := by
    obtain ⟨s1, fresh, h, hc, ht, hsh⟩ := moveToNext_fresh env s hwf hn
    refine ⟨s1, fresh, h, hc, ?_⟩
    rcases hsh with h0 | ⟨o, h1, h2⟩
    · exact Or.inl h0
    · exact Or.inr (Or.inl ⟨o, h1, by rw [ht]; exact h2⟩)
  have hprev : ∃ s1 fresh, CListBox.moveToPrev env s = some s1 ∧
      s1.base.created = fresh ++ s.base.created ∧
      (fresh = [] ∨
        (∃ o, fresh = [(addSz s.first s.items.length, o)] ∧
          addSz s.first s.items.length < s1.totalSize) ∨
        (∃ o, fresh = [(s1.first, o)]) ∨
        fresh.map Prod.fst = (windowIndices s1.first s1.items.length).reverse) := by
    obtain ⟨s1, fresh, h, hc, _, hsh⟩ := moveToPrev_fresh env s hwf hn
    refine ⟨s1, fresh, h, hc, ?_⟩
    rcases hsh with ⟨_, h0⟩ | ⟨_, _, o, h1⟩
    · exact Or.inl h0
    · exact Or.inr (Or.inr (Or.inl ⟨o, h1⟩))
  have hreset : ∀ t : CListBox, t.base.created = s.base.created →
      ∃ s1 fresh, CListBox.reset env t = some s1 ∧
      s1.base.created = fresh ++ s.base.created ∧
      (fresh = [] ∨
        (∃ o, fresh = [(addSz s.first s.items.length, o)] ∧
          addSz s.first s.items.length < s1.totalSize) ∨
        (∃ o, fresh = [(s1.first, o)]) ∨
        fresh.map Prod.fst = (windowIndices s1.first s1.items.length).reverse) := by
    intro t ht
    obtain ⟨s1, fresh, h, hc, hf, _⟩ := reset_fresh env t
    exact ⟨s1, fresh, h, by rw [hc, ht], Or.inr (Or.inr (Or.inr hf))⟩
  have hpos : ∀ which, ∃ s1 fresh, CListBox.moveToPos env s which = some s1 ∧
      s1.base.created = fresh ++ s.base.created ∧
      (fresh = [] ∨
        (∃ o, fresh = [(addSz s.first s.items.length, o)] ∧
          addSz s.first s.items.length < s1.totalSize) ∨
        (∃ o, fresh = [(s1.first, o)]) ∨
        fresh.map Prod.fst = (windowIndices s1.first s1.items.length).reverse) := by
    intro which
    unfold CListBox.moveToPos
    simp only
    split
    · exact hprev
    · split
      · exact hnext
      · split
        · exact hreset _ rfl
        · exact ⟨s, [], rfl, rfl, Or.inl rfl⟩
  cases op with
  | resize m =>
    simp only [CListBox.step, CListBox.resize]
    split
    · exact hreset _ rfl
    · exact hreset _ rfl
  | reset => exact hreset s rfl
  | moveToPos which => exact hpos which
  | scrollTo which =>
    simp only [CListBox.step, CListBox.scrollTo]
    split
    · exact hpos which
    · split
      · exact hpos _
      · exact ⟨s, [], rfl, rfl, Or.inl rfl⟩
  | moveToNext => exact hnext
  | moveToPrev => exact hprev

/-- A `reset` on a list box that has created nothing yet passes exactly the indices of its
window and leaves a well-formed list box. -/
theorem reset_init_indices (env : Env) (init : CListBox) (V T I : Nat)
    (hV : V < SZ) (hT : T < SZ) (hI : I < SZ)
    (h1 : init.first = I) (h2 : init.totalSize = T) (h3 : init.items.length = V)
    (h4 : init.base.created = []) :
    ∃ s0, CListBox.reset env init = some s0 ∧ s0.WF ∧ s0.first = I ∧ s0.items.length = V ∧
      s0.totalSize = T ∧ s0.base.created.map Prod.fst = (windowIndices I V).reverse := by
  obtain ⟨s0, hr, hwf, hlen, htot, hfirst, _⟩ :=
    reset_fresh_sound env init V T I hV hT hI h1 h2 h3 h4
  obtain ⟨s1, fresh, hr1, hc, hf, _⟩ := reset_fresh env init
  rw [hr] at hr1
  simp only [Option.some.injEq] at hr1
  subst hr1
  refine ⟨s0, hr, hwf, hfirst, hlen, htot, ?_⟩
  rw [hc, h4, List.append_nil, hf, hfirst, hlen]

/-- C2, as the code has it: every call returns (given at least one visible slot) and passes to
`createObject` nothing, or the one index `first + items.size()` that the guard of `moveToNext`
found below `totalSize`, or the new position `first` alone (`moveToPrev`), or exactly the
indices `first, ..., first + items.size() - 1` of the window it leaves (`reset`, and with it
the constructor, `resize` and the full reset of `moveToPos`). So every index `moveToNext`
passes is below `totalSize`; the indices the constructor, `reset` and `resize` pass are all
below `totalSize` exactly when there is no slot or `first + items.size() <= totalSize`; and
every index any call passes is below `totalSize` when the window the call leaves lies inside
the item set, `first + items.size() <= totalSize`. -/
theorem CListBox.created_indices_in_range (env : Env) :
    (∀ (Pos ItemOffset : Point) (V T I : Nat) (Slider : Int), V < SZ → T < SZ → I < SZ →
        ∃ s0, CListBox.ctor env Pos ItemOffset V T I Slider = some s0 ∧
          s0.base.created.map Prod.fst = (windowIndices I V).reverse ∧
          ((∀ k ∈ s0.base.created.map Prod.fst, k < s0.totalSize) ↔ (V = 0 ∨ I + V ≤ T))) ∧
    (∀ (s : CListBox), s.WF →
        ∃ s1 fresh, CListBox.reset env s = some s1 ∧
          s1.base.created = fresh ++ s.base.created ∧
          fresh.map Prod.fst = (windowIndices s1.first s1.items.length).reverse ∧
          ((∀ k ∈ fresh.map Prod.fst, k < s1.totalSize) ↔
            (s1.items.length = 0 ∨ s1.first + s1.items.length ≤ s1.totalSize))) ∧
    (∀ (s : CListBox) (newSize : Nat), s.WF → newSize < SZ →
        ∃ s1 fresh, CListBox.resize env s newSize = some s1 ∧
          s1.base.created = fresh ++ s.base.created ∧
          fresh.map Prod.fst = (windowIndices s1.first s1.items.length).reverse ∧
          ((∀ k ∈ fresh.map Prod.fst, k < s1.totalSize) ↔
            (s1.items.length = 0 ∨ s1.first + s1.items.length ≤ s1.totalSize))) ∧
    (∀ (s : CListBox), s.WF → 0 < s.items.length →
        ∃ s1 fresh, CListBox.moveToNext env s = some s1 ∧
          s1.base.created = fresh ++ s.base.created ∧
          ∀ e ∈ fresh, e.1 < s1.totalSize) ∧
    (∀ (s : CListBox), s.WF → 0 < s.items.length →
        ∃ s1 fresh, CListBox.moveToPrev env s = some s1 ∧
          s1.base.created = fresh ++ s.base.created ∧
          ((s.first = 0 ∧ fresh = []) ∨ (s.first ≠ 0 ∧ ∃ o, fresh = [(s1.first, o)]))) ∧
    (∀ (s : CListBox) (op : ListOp), s.WF → ListOp.inRange op = true → 0 < s.items.length →
        ∃ s1 fresh, CListBox.step env s op = some s1 ∧
          s1.base.created = fresh ++ s.base.created ∧
          (fresh = [] ∨
            (∃ o, fresh = [(addSz s.first s.items.length, o)] ∧
              addSz s.first s.items.length < s1.totalSize) ∨
            (∃ o, fresh = [(s1.first, o)]) ∨
            fresh.map Prod.fst = (windowIndices s1.first s1.items.length).reverse) ∧
          (s1.first + s1.items.length ≤ s1.totalSize → ∀ e ∈ fresh, e.1 < s1.totalSize)) := by
  have hiff : ∀ (s1 : CListBox) (l : List Nat), s1.WF →
      l = (windowIndices s1.first s1.items.length).reverse →
      ((∀ k ∈ l, k < s1.totalSize) ↔
        (s1.items.length = 0 ∨ s1.first + s1.items.length ≤ s1.totalSize)) := by
    intro s1 l hwf hl
    rw [hl, ← windowIndices_below s1.first s1.items.length s1.totalSize hwf.1 hwf.2.1 hwf.2.2.1]
    simp only [List.mem_reverse]
  refine ⟨?_, ?_, ?_, ?_, ?_, ?_⟩
  · intro Pos ItemOffset V T I Slider hV hT hI
    have hinit : ∃ s0, CListBox.ctor env Pos ItemOffset V T I Slider = some s0 ∧ s0.WF ∧
        s0.first = I ∧ s0.items.length = V ∧ s0.totalSize = T ∧
        s0.base.created.map Prod.fst = (windowIndices I V).reverse := by
      unfold CListBox.ctor
      simp only
      refine reset_init_indices env _ V T I hV hT hI rfl rfl (by simp) ?_
      simp only
      split <;> rfl
    obtain ⟨s0, h0, hwf, hfirst, hlen, htot, hmap⟩ := hinit
    refine ⟨s0, h0, hmap, ?_⟩
    have := hiff s0 (s0.base.created.map Prod.fst) hwf (by rw [hmap, hfirst, hlen])
    rw [hlen, hfirst, htot] at this
    rw [htot]
    exact this
  · intro s hwf
    obtain ⟨s1, fresh, hr, hc, hf, _⟩ := reset_fresh env s
    obtain ⟨hwf1, _⟩ := reset_at_sound env s s1 hwf s.first hwf.1 hr
    exact ⟨s1, fresh, hr, hc, hf, hiff s1 _ hwf1 hf⟩
  · intro s m hwf hm
    obtain ⟨s1, hr⟩ : ∃ s1, CListBox.resize env s m = some s1 := reset_total env _
    obtain ⟨hwf1, _⟩ := resize_sound env s s1 hwf m hm hr
    have hr2 := hr
    unfold CListBox.resize at hr2
    simp only at hr2
    have key : ∀ t : CListBox, CListBox.reset env t = some s1 →
        t.base.created = s.base.created →
        ∃ fresh, s1.base.created = fresh ++ s.base.created ∧
          fresh.map Prod.fst = (windowIndices s1.first s1.items.length).reverse := by
      intro t hrt ht
      obtain ⟨s2, fresh, hr3, hc, hf, _⟩ := reset_fresh env t
      rw [hrt] at hr3
      simp only [Option.some.injEq] at hr3
      subst hr3
      exact ⟨fresh, by rw [hc, ht], hf⟩
    have hfresh : ∃ fresh, s1.base.created = fresh ++ s.base.created ∧
        fresh.map Prod.fst = (windowIndices s1.first s1.items.length).reverse := by
      split at hr2
      · exact key _ hr2 rfl
      · exact key _ hr2 rfl
    obtain ⟨fresh, hc, hf⟩ := hfresh
    exact ⟨s1, fresh, hr, hc, hf, hiff s1 _ hwf1 hf⟩
  · intro s hwf hn
    obtain ⟨s1, fresh, h, hc, ht, hsh⟩ := moveToNext_fresh env s hwf hn
    refine ⟨s1, fresh, h, hc, fun e he => ?_⟩
    rcases hsh with h0 | ⟨o, h1, h2⟩
    · rw [h0] at he; simp at he
    · rw [h1] at he
      simp only [List.mem_singleton] at he
      rw [he, ht]; exact h2
  · intro s hwf hn
    obtain ⟨s1, fresh, h, hc, _, hsh⟩ := moveToPrev_fresh env s hwf hn
    refine ⟨s1, fresh, h, hc, ?_⟩
    rcases hsh with h0 | ⟨h1, _, h2⟩
    · exact Or.inl h0
    · exact Or.inr ⟨h1, h2⟩
  · intro s op hwf hop hn
    obtain ⟨s1, fresh, hstep, hc, hsh⟩ := step_fresh env s op hwf hn
    obtain ⟨hwf1, ⟨hlen, _⟩, _⟩ := step_sound env s s1 hwf op hop hstep
    refine ⟨s1, fresh, hstep, hc, hsh, fun hin e he => ?_⟩
    rcases hsh with h0 | ⟨o, h1, h2⟩ | ⟨o, h1⟩ | h4
    · rw [h0] at he; simp at he
    · rw [h1] at he
      simp only [List.mem_singleton] at he
      rw [he]; exact h2
    · rw [h1] at he
      simp only [List.mem_singleton] at he
      rw [he]
      show s1.first < s1.totalSize
      omega
    · have hall := (hiff s1 _ hwf1 h4).mpr (Or.inr hin)
      exact hall e.1 (List.mem_map_of_mem _ he)

/-- C2, witness: the statement at the constructor with `VisibleSize = 2`, `TotalSize = 5`,
`InitialPos = 1`, and at `reset`, `resize(4)`, `moveToNext`, `moveToPrev` and the call
`moveToPos(3)` on the sample list box. -/
theorem CListBox.created_indices_in_range_witness :
    (∃ s0, CListBox.ctor env0 ⟨0, 0⟩ ⟨0, 1⟩ 2 5 1 0 = some s0 ∧
      s0.base.created.map Prod.fst = (windowIndices 1 2).reverse ∧
      ((∀ k ∈ s0.base.created.map Prod.fst, k < s0.totalSize) ↔ (2 = 0 ∨ 1 + 2 ≤ 5))) ∧
    (∃ s1 fresh, CListBox.reset env0 sampleBox = some s1 ∧
      s1.base.created = fresh ++ sampleBox.base.created ∧
      fresh.map Prod.fst = (windowIndices s1.first s1.items.length).reverse ∧
      ((∀ k ∈ fresh.map Prod.fst, k < s1.totalSize) ↔
        (s1.items.length = 0 ∨ s1.first + s1.items.length ≤ s1.totalSize))) ∧
    (∃ s1 fresh, CListBox.resize env0 sampleBox 4 = some s1 ∧
      s1.base.created = fresh ++ sampleBox.base.created ∧
      fresh.map Prod.fst = (windowIndices s1.first s1.items.length).reverse ∧
      ((∀ k ∈ fresh.map Prod.fst, k < s1.totalSize) ↔
        (s1.items.length = 0 ∨ s1.first + s1.items.length ≤ s1.totalSize))) ∧
    (∃ s1 fresh, CListBox.moveToNext env0 sampleBox = some s1 ∧
      s1.base.created = fresh ++ sampleBox.base.created ∧
      ∀ e ∈ fresh, e.1 < s1.totalSize) ∧
    (∃ s1 fresh, CListBox.moveToPrev env0 sampleBox = some s1 ∧
      s1.base.created = fresh ++ sampleBox.base.created ∧
      ((sampleBox.first = 0 ∧ fresh = []) ∨
        (sampleBox.first ≠ 0 ∧ ∃ o, fresh = [(s1.first, o)]))) ∧
    (∃ s1 fresh, CListBox.step env0 sampleBox (ListOp.moveToPos 3) = some s1 ∧
      s1.base.created = fresh ++ sampleBox.base.created ∧
      (fresh = [] ∨
        (∃ o, fresh = [(addSz sampleBox.first sampleBox.items.length, o)] ∧
          addSz sampleBox.first sampleBox.items.length < s1.totalSize) ∨
        (∃ o, fresh = [(s1.first, o)]) ∨
        fresh.map Prod.fst = (windowIndices s1.first s1.items.length).reverse) ∧
      (s1.first + s1.items.length ≤ s1.totalSize → ∀ e ∈ fresh, e.1 < s1.totalSize)) :=
  ⟨(CListBox.created_indices_in_range env0).1 ⟨0, 0⟩ ⟨0, 1⟩ 2 5 1 0
      (by decide) (by decide) (by decide),
    (CListBox.created_indices_in_range env0).2.1 sampleBox (by decide),
    (CListBox.created_indices_in_range env0).2.2.1 sampleBox 4 (by decide) (by decide),
    (CListBox.created_indices_in_range env0).2.2.2.1 sampleBox (by decide) (by decide),
    (CListBox.created_indices_in_range env0).2.2.2.2.1 sampleBox (by decide) (by decide),
    (CListBox.created_indices_in_range env0).2.2.2.2.2 sampleBox (ListOp.moveToPos 3)
      (by decide) (by decide) (by decide)⟩

/-- C2, counterexample: the constructor with `VisibleSize = 3`, `TotalSize = 2`,
`InitialPos = 0` passes the indices 0, 1 and 2 to `createObject` (newest first in the
history), and 2 is not below `totalSize = 2`. -/
theorem CListBox.created_index_out_of_range :
    (CListBox.ctor env0 ⟨0, 0⟩ ⟨0, 1⟩ 3 2 0 0).map
        (fun s => (s.base.created.map Prod.fst, s.totalSize,
          decide (∀ k ∈ s.base.created.map Prod.fst, k < s.totalSize)))
      = some ([2, 1, 0], 2, false) := by
  decide

/-! ### C3 and C4: `getItem` and `getIndexOf` -/

theorem getItemLoop_eq (which : Nat) (hw : which < SZ) (items : List Ptr) :
    ∀ i, i ≤ which → CListBox.getItemLoop which i items = (items.get? (which - i)).join := by
  induction items with
  | nil => intro i _; rfl
  | cons p rest ih =>
    intro i hi
    by_cases h : i = which
    · subst h; simp [CListBox.getItemLoop]
    · have h1 : (i + 1) % SZ = i + 1 := Nat.mod_eq_of_lt (by omega)
      have h2 : which - i = (which - (i + 1)) + 1 := by omega
      simp only [CListBox.getItemLoop, if_neg h, h1]
      rw [ih (i + 1) (by omega), h2]
      simp

/-- What `getItem` computes: the content of slot `which - first` when
`first <= which <= first + items.size()` (the sum taken in `size_t`) and
`which <= totalSize`, and the null pointer otherwise. Both upper bounds are inclusive. -/
theorem CListBox.getItem_eq (s : CListBox) (which : Nat) (hw : which < SZ) :
    s.getItem which =
      if s.first ≤ which ∧ which ≤ addSz s.first s.items.length ∧ which ≤ s.totalSize then
        (s.items.get? (which - s.first)).join
      else none := by
  unfold CListBox.getItem
  by_cases h : which < s.first ∨ which > addSz s.first s.items.length ∨ which > s.totalSize
  · rw [if_pos h, if_neg]
    omega
  · rw [if_neg h, if_pos (by omega)]
    exact getItemLoop_eq which hw s.items s.first (by omega)

/-- C3, at the failing input: the list box built with `VisibleSize = 3`, `TotalSize = 2`,
`InitialPos = 0` has `totalSize = 2`, and `getItem(2)` returns the item of slot 2 instead of
the null pointer, although 2 is not below `totalSize`. -/
theorem CListBox.getItem_at_totalSize :
    (CListBox.ctor env0 ⟨0, 0⟩ ⟨0, 1⟩ 3 2 0 0).map
        (fun s => (s.first, s.items, s.totalSize, s.getItem 2))
      = some (0, [some 0, some 1, some 2], 2, some 2) := by
  decide

/-- The search loop of `getIndexOf` returns the index of the least slot holding the item. -/
theorem getIndexOfLoop_spec (item : Ptr) (items : List Ptr) :
    ∀ i, i < SZ →
      (item ∈ items →
        ∃ j, j < items.length ∧ items.get? j = some item ∧
          (∀ m, m < j → items.get? m ≠ some item) ∧
          CListBox.getIndexOfLoop item i items = (i + j) % SZ) ∧
      (item ∉ items → CListBox.getIndexOfLoop item i items = SZ - 1) := by
  induction items with
  | nil => intro i _; exact ⟨fun h => by simp at h, fun _ => rfl⟩
  | cons p rest ih =>
    intro i hi
    by_cases hp : p = item
    · refine ⟨fun _ => ⟨0, by simp, by simp [hp], by simp, ?_⟩, fun h => ?_⟩
      · simp [CListBox.getIndexOfLoop, hp, Nat.mod_eq_of_lt hi]
      · exact absurd (by rw [hp]; exact List.mem_cons_self _ _) h
    · obtain ⟨ih1, ih2⟩ := ih ((i + 1) % SZ) (Nat.mod_lt _ (by decide))
      refine ⟨fun hmem => ?_, fun hmem => ?_⟩
      · have hr : item ∈ rest := by
          rcases List.mem_cons.mp hmem with h | h
          · exact absurd h.symm hp
          · exact h
        obtain ⟨j, hj, hget, hleast, hval⟩ := ih1 hr
        refine ⟨j + 1, by simpa using hj, by simpa using hget, ?_, ?_⟩
        · intro m hm
          cases m with
          | zero => simpa using hp
          | succ m => simpa using hleast m (by omega)
        · simp only [CListBox.getIndexOfLoop, if_neg hp, hval]
          unfold SZ; omega
      · simp only [CListBox.getIndexOfLoop, if_neg hp]
        exact ih2 (fun h => hmem (List.mem_cons_of_mem _ h))

/-- C4, as the code has it: `getIndexOf(item)` returns `first + i` taken in `size_t`, where
`i` is the least visible slot holding the item, and `size_t(-1)` when no visible slot holds
it. When `first + items.size()` does not wrap around (it is below 2^64) the result for a held
item is `first + i` itself and lies in `[first, first + items.size())`, and `size_t(-1)` is
returned exactly when no visible slot holds the item. -/
theorem CListBox.getIndexOf_spec (s : CListBox) (item : Ptr) (hf : s.first < SZ) :
    (item ∈ s.items →
      ∃ i, i < s.items.length ∧ s.items.get? i = some item ∧
        (∀ m, m < i → s.items.get? m ≠ some item) ∧
        s.getIndexOf item = (s.first + i) % SZ ∧
        (s.first + s.items.length < SZ →
          s.getIndexOf item = s.first + i ∧ s.first ≤ s.getIndexOf item ∧
            s.getIndexOf item < s.first + s.items.length)) ∧
    (item ∉ s.items → s.getIndexOf item = SZ - 1) ∧
    (s.first + s.items.length < SZ → (s.getIndexOf item = SZ - 1 ↔ item ∉ s.items)) := by
  obtain ⟨h1, h2⟩ := getIndexOfLoop_spec item s.items s.first hf
  have key : item ∈ s.items →
      ∃ i, i < s.items.length ∧ s.items.get? i = some item ∧
        (∀ m, m < i → s.items.get? m ≠ some item) ∧
        s.getIndexOf item = (s.first + i) % SZ ∧
        (s.first + s.items.length < SZ →
          s.getIndexOf item = s.first + i ∧ s.first ≤ s.getIndexOf item ∧
            s.getIndexOf item < s.first + s.items.length) := by
    intro hmem
    obtain ⟨j, hj, hget, hleast, hval⟩ := h1 hmem
    refine ⟨j, hj, hget, hleast, hval, fun hno => ?_⟩
    have hv : s.getIndexOf item = s.first + j := by
      unfold CListBox.getIndexOf
      rw [hval]; exact Nat.mod_eq_of_lt (by omega)
    rw [hv]
    omega
  refine ⟨key, h2, fun hno => ⟨fun heq hmem => ?_, h2⟩⟩
  obtain ⟨i, hi, _, _, _, hrange⟩ := key hmem
  obtain ⟨_, _, hlt⟩ := hrange hno
  omega

/-- C4, witness: the statement at the sample list box and the item of its slot 1. -/
theorem CListBox.getIndexOf_spec_witness :
    (some 1 ∈ sampleBox.items →
      ∃ i, i < sampleBox.items.length ∧ sampleBox.items.get? i = some (some 1) ∧
        (∀ m, m < i → sampleBox.items.get? m ≠ some (some 1)) ∧
        sampleBox.getIndexOf (some 1) = (sampleBox.first + i) % SZ ∧
        (sampleBox.first + sampleBox.items.length < SZ →
          sampleBox.getIndexOf (some 1) = sampleBox.first + i ∧
            sampleBox.first ≤ sampleBox.getIndexOf (some 1) ∧
            sampleBox.getIndexOf (some 1) < sampleBox.first + sampleBox.items.length)) ∧
    (some 1 ∉ sampleBox.items → sampleBox.getIndexOf (some 1) = SZ - 1) ∧
    (sampleBox.first + sampleBox.items.length < SZ →
      (sampleBox.getIndexOf (some 1) = SZ - 1 ↔ some 1 ∉ sampleBox.items)) :=
  CListBox.getIndexOf_spec sampleBox (some 1) (by decide)

/-- C4, counterexample: in the list box built with `VisibleSize = 1`, `TotalSize = 5`,
`InitialPos = 2^64 - 1`, slot 0 holds the item made for index `2^64 - 1`, and `getIndexOf` of
that item returns `2^64 - 1`, which is the sentinel `size_t(-1)`: the sentinel is returned
although a visible slot holds the item. -/
theorem CListBox.getIndexOf_sentinel_for_held_item :
    (CListBox.ctor env0 ⟨0, 0⟩ ⟨0, 1⟩ 1 5 (SZ - 1) 0).map
        (fun s => (s.first, s.items, s.getIndexOf (some (SZ - 1)),
          decide (s.getIndexOf (some (SZ - 1)) = SZ - 1 ↔ some (SZ - 1) ∉ s.items)))
      = some (SZ - 1, [some (SZ - 1)], SZ - 1, false) := by
  decide

/-! ### C5: the tab switcher -/

theorem deleteItem_clears (w : CObjectList) (p : Ptr)
    (hc : w.children = p.toList) (ha : w.activated = p.toList) :
    (w.deleteItem p).children = [] ∧ (w.deleteItem p).activated = [] := by
  cases p with
  | none => exact ⟨hc, ha⟩
  | some o =>
    simp only [Option.toList] at hc ha
    simp [CObjectList.deleteItem, CObjectList.removeChild, CObjectList.deactivateObj, hc, ha]

theorem createItem_registers (env : Env) (w : CObjectList) (k : Nat)
    (hc : w.children = []) (ha : w.activated = []) :
    (w.createItem env k).1.children = [(w.createItem env k).2] ∧
      (w.createItem env k).1.activated = [(w.createItem env k).2] := by
  simp [CObjectList.createItem, CObjectList.addChild, CObjectList.activateObj, hc, ha]

theorem tab_reset_fields (env : Env) (s : CTabbedInt) :
    (CTabbedInt.reset env s).activeID = s.activeID ∧
    (CTabbedInt.reset env s).activeTab =
      some ((s.base.deleteItem s.activeTab).createItem env s.activeID).2 ∧
    (CTabbedInt.reset env s).base.children =
      ((s.base.deleteItem s.activeTab).createItem env s.activeID).1.children ∧
    (CTabbedInt.reset env s).base.activated =
      ((s.base.deleteItem s.activeTab).createItem env s.activeID).1.activated ∧
    (CTabbedInt.reset env s).base.created =
      (s.activeID, ((s.base.deleteItem s.activeTab).createItem env s.activeID).2) ::
        s.base.created := by
  refine ⟨rfl, rfl, ?_, ?_, ?_⟩
  · simp only [CTabbedInt.reset]; split <;> rfl
  · simp only [CTabbedInt.reset]; split <;> rfl
  · simp only [CTabbedInt.reset]
    split <;> simp [createItem_created, deleteItem_created]

/-- The item `createItem` returns is the callback's object, or the object `make_shared` yields
when the callback returns the null pointer. -/
theorem createItem_item (env : Env) (w : CObjectList) (k : Nat) :
    env.createObject (w.created.map Prod.fst) k = some (w.createItem env k).2 ∨
      (env.createObject (w.created.map Prod.fst) k = none ∧
        (w.createItem env k).2 = env.makeShared w.created.length) := by
  unfold CObjectList.createItem
  simp only
  cases h : env.createObject (w.created.map Prod.fst) k with
  | none => exact Or.inr ⟨rfl, rfl⟩
  | some o => exact Or.inl rfl

/-- After `CTabbedInt::reset` the new tab is the only child and the only active object; it is
the item created last, for `activeID`: the callback's object for `activeID`, or the object
made in its place when the callback returned the null pointer. -/
theorem tab_reset_spec (env : Env) (s : CTabbedInt)
    (hc : s.base.children = s.activeTab.toList) (ha : s.base.activated = s.activeTab.toList) :
    (CTabbedInt.reset env s).activeID = s.activeID ∧
    ∃ tab, (CTabbedInt.reset env s).activeTab = some tab ∧
      (CTabbedInt.reset env s).base.children = [tab] ∧
      (CTabbedInt.reset env s).base.activated = [tab] ∧
      (CTabbedInt.reset env s).base.created = (s.activeID, tab) :: s.base.created ∧
      (env.createObject (s.base.created.map Prod.fst) s.activeID = some tab ∨
        (env.createObject (s.base.created.map Prod.fst) s.activeID = none ∧
          tab = env.makeShared s.base.created.length)) := by
  obtain ⟨f1, f2, f3, f4, f5⟩ := tab_reset_fields env s
  obtain ⟨d1, d2⟩ := deleteItem_clears s.base s.activeTab hc ha
  obtain ⟨c1, c2⟩ := createItem_registers env (s.base.deleteItem s.activeTab) s.activeID d1 d2
  have hitem := createItem_item env (s.base.deleteItem s.activeTab) s.activeID
  rw [deleteItem_created] at hitem
  exact ⟨f1, _, f2, by rw [f3, c1], by rw [f4, c2], f5, hitem⟩

/-- The tab switcher's invariant holds along every sequence of `setActive` and `reset`. -/
theorem tab_run_spec (env : Env) (ops : List TabOp) :
    ∀ s : CTabbedInt,
      (∃ tab rest, s.activeTab = some tab ∧ s.base.children = [tab] ∧
        s.base.activated = [tab] ∧ s.base.created = (s.activeID, tab) :: rest ∧
        (env.createObject (rest.map Prod.fst) s.activeID = some tab ∨
          (env.createObject (rest.map Prod.fst) s.activeID = none ∧
            tab = env.makeShared rest.length))) →
      ∃ tab rest, (CTabbedInt.run env s ops).activeTab = some tab ∧
        (CTabbedInt.run env s ops).base.children = [tab] ∧
        (CTabbedInt.run env s ops).base.activated = [tab] ∧
        (CTabbedInt.run env s ops).base.created =
          ((CTabbedInt.run env s ops).activeID, tab) :: rest ∧
        (env.createObject (rest.map Prod.fst) (CTabbedInt.run env s ops).activeID = some tab ∨
          (env.createObject (rest.map Prod.fst) (CTabbedInt.run env s ops).activeID = none ∧
            tab = env.makeShared rest.length)) := by
  induction ops with
  | nil => intro s h; exact h
  | cons op ops ih =>
    intro s h
    simp only [CTabbedInt.run]
    apply ih
    obtain ⟨tab, rest, h1, h2, h3, h4, h5⟩ := h
    cases op with
    | setActive which =>
      simp only [CTabbedInt.step, CTabbedInt.setActive]
      by_cases hw : which = s.activeID
      · rw [if_neg (by simpa using hw)]
        exact ⟨tab, rest, h1, h2, h3, h4, h5⟩
      · rw [if_pos hw]
        obtain ⟨e1, t, e2, e3, e4, e5, e6⟩ := tab_reset_spec env { s with activeID := which }
          (by simp [h1, h2]) (by simp [h1, h3])
        exact ⟨t, s.base.created, e2, e3, e4, by rw [e5, e1], by rw [e1]; exact e6⟩
    | reset =>
      simp only [CTabbedInt.step]
      obtain ⟨e1, t, e2, e3, e4, e5, e6⟩ :=
        tab_reset_spec env s (by simp [h1, h2]) (by simp [h1, h3])
      exact ⟨t, s.base.created, e2, e3, e4, by rw [e5, e1], by rw [e1]; exact e6⟩

/-- The constructor establishes the tab switcher's invariant. -/
theorem tab_ctor_spec (env : Env) (position : Point) (ActiveID : Nat) :
    ∃ tab rest, (CTabbedInt.ctor env position ActiveID).activeTab = some tab ∧
      (CTabbedInt.ctor env position ActiveID).base.children = [tab] ∧
      (CTabbedInt.ctor env position ActiveID).base.activated = [tab] ∧
      (CTabbedInt.ctor env position ActiveID).base.created =
        ((CTabbedInt.ctor env position ActiveID).activeID, tab) :: rest ∧
      (env.createObject (rest.map Prod.fst) (CTabbedInt.ctor env position ActiveID).activeID
          = some tab ∨
        (env.createObject (rest.map Prod.fst) (CTabbedInt.ctor env position ActiveID).activeID
            = none ∧
          tab = env.makeShared rest.length)) := by
  unfold CTabbedInt.ctor
  simp only
  obtain ⟨e1, t, e2, e3, e4, e5, e6⟩ := tab_reset_spec env
    { base := { (CObjectList.ctor env) with
        defActions := (CObjectList.ctor env).defActions -
          ((CObjectList.ctor env).defActions &&& env.DISPOSE),
        pos := (CObjectList.ctor env).pos.add position },
      activeTab := none, activeID := ActiveID } rfl rfl
  exact ⟨t, _, e2, e3, e4, by rw [e5, e1], by rw [e1]; exact e6⟩

/-- C5, as the code has it: in every state `s` of a `CTabbedInt` reached from the constructor
by `setActive` and `reset` calls, exactly one item is attached and active: the item
`getItem()` returns is the only child and the only activated object; it is the item
`createItem` made last, for index `activeID`, and it is the object the creation function
`createObject` returned for `activeID`, or, when `createObject` returned the null pointer, the
empty `CIntObject` that `createItem` made in its place; every other item made before is
neither a child nor active. After `setActive(which)` the state is again of this kind with
`activeID = which`, exactly one item having been created for `which` when `which` differs
from the old `activeID`; `setActive` with the current `activeID` returns the state unchanged,
so it creates nothing. -/
theorem CTabbedInt.single_active_item (env : Env) (position : Point) (ActiveID : Nat)
    (ops : List TabOp) (s : CTabbedInt)
    (hs : s = CTabbedInt.run env (CTabbedInt.ctor env position ActiveID) ops) :
    (∃ tab rest, s.getItem = some tab ∧ s.base.children = [tab] ∧ s.base.activated = [tab] ∧
      s.base.created = (s.activeID, tab) :: rest ∧
      (env.createObject (rest.map Prod.fst) s.activeID = some tab ∨
        (env.createObject (rest.map Prod.fst) s.activeID = none ∧
          tab = env.makeShared rest.length)) ∧
      (∀ e ∈ s.base.created, e.2 ≠ tab → e.2 ∉ s.base.children ∧ e.2 ∉ s.base.activated)) ∧
    (∀ which, ∃ tab1 rest1,
      (CTabbedInt.setActive env s which).activeID = which ∧
      (CTabbedInt.setActive env s which).getItem = some tab1 ∧
      (CTabbedInt.setActive env s which).base.children = [tab1] ∧
      (CTabbedInt.setActive env s which).base.activated = [tab1] ∧
      (CTabbedInt.setActive env s which).base.created = (which, tab1) :: rest1 ∧
      (env.createObject (rest1.map Prod.fst) which = some tab1 ∨
        (env.createObject (rest1.map Prod.fst) which = none ∧
          tab1 = env.makeShared rest1.length)) ∧
      (which ≠ s.activeID → rest1 = s.base.created)) ∧
    CTabbedInt.setActive env s s.activeID = s := by
  obtain ⟨tab, rest, h1, h2, h3, h4, h5⟩ :=
    tab_run_spec env ops (CTabbedInt.ctor env position ActiveID)
      (tab_ctor_spec env position ActiveID)
  rw [← hs] at h1 h2 h3 h4 h5
  refine ⟨⟨tab, rest, h1, h2, h3, h4, h5, ?_⟩, ?_, ?_⟩
  · intro e _ hne
    rw [h2, h3]
    simp [hne]
  · intro which
    by_cases hw : which = s.activeID
    · refine ⟨tab, rest, ?_⟩
      simp only [CTabbedInt.setActive, if_neg (not_not.mpr hw)]
      exact ⟨hw.symm, h1, h2, h3, by rw [h4, hw], by rw [hw]; exact h5,
        fun hne => absurd hw hne⟩
    · obtain ⟨e1, t, e2, e3, e4, e5, e6⟩ := tab_reset_spec env { s with activeID := which }
        (by simp [h1, h2]) (by simp [h1, h3])
      refine ⟨t, s.base.created, ?_⟩
      simp only [CTabbedInt.setActive, if_pos hw]
      exact ⟨e1, e2, e3, e4, e5, e6, fun _ => trivial⟩
  · simp [CTabbedInt.setActive]

/-- C5, witness: the statement at the tab switcher built with `ActiveID = 0` and switched to
tab 1. -/
theorem CTabbedInt.single_active_item_witness :
    (∃ tab rest,
      (CTabbedInt.run env0 (CTabbedInt.ctor env0 ⟨0, 0⟩ 0) [TabOp.setActive 1]).getItem
        = some tab ∧
      (CTabbedInt.run env0 (CTabbedInt.ctor env0 ⟨0, 0⟩ 0) [TabOp.setActive 1]).base.children
        = [tab] ∧
      (CTabbedInt.run env0 (CTabbedInt.ctor env0 ⟨0, 0⟩ 0) [TabOp.setActive 1]).base.activated
        = [tab] ∧
      (CTabbedInt.run env0 (CTabbedInt.ctor env0 ⟨0, 0⟩ 0) [TabOp.setActive 1]).base.created
        = ((CTabbedInt.run env0 (CTabbedInt.ctor env0 ⟨0, 0⟩ 0) [TabOp.setActive 1]).activeID,
            tab) :: rest ∧
      (env0.createObject (rest.map Prod.fst)
          (CTabbedInt.run env0 (CTabbedInt.ctor env0 ⟨0, 0⟩ 0) [TabOp.setActive 1]).activeID
          = some tab ∨
        (env0.createObject (rest.map Prod.fst)
            (CTabbedInt.run env0 (CTabbedInt.ctor env0 ⟨0, 0⟩ 0) [TabOp.setActive 1]).activeID
            = none ∧
          tab = env0.makeShared rest.length)) ∧
      (∀ e ∈ (CTabbedInt.run env0 (CTabbedInt.ctor env0 ⟨0, 0⟩ 0)
            [TabOp.setActive 1]).base.created,
        e.2 ≠ tab →
          e.2 ∉ (CTabbedInt.run env0 (CTabbedInt.ctor env0 ⟨0, 0⟩ 0)
            [TabOp.setActive 1]).base.children ∧
          e.2 ∉ (CTabbedInt.run env0 (CTabbedInt.ctor env0 ⟨0, 0⟩ 0)
            [TabOp.setActive 1]).base.activated)) :=
  (CTabbedInt.single_active_item env0 ⟨0, 0⟩ 0 [TabOp.setActive 1] _ rfl).1

/-- C5, counterexample: with a creation function that returns the null pointer, the tab
switcher built with `ActiveID = 3` holds as its active item the object 100 that `createItem`
made with `make_shared`; the creation function returned null for index 3, so the active item
was not created by the creation function. -/
theorem CTabbedInt.active_item_not_from_callback :
    ((CTabbedInt.ctor envNull ⟨0, 0⟩ 3).getItem,
      (CTabbedInt.ctor envNull ⟨0, 0⟩ 3).base.children,
      (CTabbedInt.ctor envNull ⟨0, 0⟩ 3).base.created,
      envNull.createObject [] 3)
      = (some 100, [100], [(3, 100)], none) := by
  decide

/-- C5, evaluation: a tab switcher built with `ActiveID = 0` and switched to tab 1 holds the
item made for index 1 as its only child and only active object, after two creations. -/
theorem CTabbedInt.single_active_item_sample :
    (CTabbedInt.run env0 (CTabbedInt.ctor env0 ⟨0, 0⟩ 0) [TabOp.setActive 1]).getItem = some 1 ∧
      (CTabbedInt.run env0 (CTabbedInt.ctor env0 ⟨0, 0⟩ 0) [TabOp.setActive 1]).base.children
        = [1] ∧
      (CTabbedInt.run env0 (CTabbedInt.ctor env0 ⟨0, 0⟩ 0) [TabOp.setActive 1]).base.activated
        = [1] ∧
      (CTabbedInt.run env0 (CTabbedInt.ctor env0 ⟨0, 0⟩ 0) [TabOp.setActive 1]).base.created
        = [(1, 1), (0, 0)] := by
  decide

/-! ### C6: one-step shifts and `reset` -/

theorem windowFrom_iff (c : List (Nat × Obj)) (items : List Ptr) :
    ∀ k, k < SZ →
      (windowFrom c k items = true ↔
        ∀ i, i < items.length → ∃ o, items.get? i = some (some o) ∧ ((k + i) % SZ, o) ∈ c) := by
  induction items with
  | nil => intro k _; simp [windowFrom]
  | cons p rest ih =>
    intro k hk
    have hk1 : (k + 1) % SZ < SZ := Nat.mod_lt _ (by decide)
    cases p with
    | none =>
      simp only [windowFrom, Bool.false_eq_true, false_iff, not_forall]
      exact ⟨0, by simp, by simp⟩
    | some o =>
      simp only [windowFrom, Bool.and_eq_true, decide_eq_true_eq, ih _ hk1]
      constructor
      · rintro ⟨h0, hrest⟩ i hi
        cases i with
        | zero => exact ⟨o, by simp, by simpa [Nat.mod_eq_of_lt hk] using h0⟩
        | succ i =>
          obtain ⟨o1, hg, hm⟩ := hrest i (by simpa using hi)
          refine ⟨o1, by simpa using hg, ?_⟩
          have : ((k + 1) % SZ + i) % SZ = (k + (i + 1)) % SZ := by unfold SZ; omega
          rw [← this]; exact hm
      · intro h
        constructor
        · obtain ⟨o1, hg, hm⟩ := h 0 (by simp)
          simp only [List.get?_cons_zero, Option.some.injEq] at hg
          subst hg
          simpa [Nat.mod_eq_of_lt hk] using hm
        · intro i hi
          obtain ⟨o1, hg, hm⟩ := h (i + 1) (by simpa using hi)
          refine ⟨o1, by simpa using hg, ?_⟩
          have : ((k + 1) % SZ + i) % SZ = (k + (i + 1)) % SZ := by unfold SZ; omega
          rw [this]; exact hm

theorem holdsWindow_iff (s : CListBox) (hf : s.first < SZ) :
    s.holdsWindow = true ↔ s.SlotsMadeFor :=
  windowFrom_iff s.base.created s.items s.first hf

/-- C6: the one-step shifts agree with a full reset. In a list box with at least one visible
slot whose slot `i` holds the item created for index `first + i`, when the guard
`first + items.size() < totalSize` holds `moveToNext` and setting `first` to `first + 1`
followed by `reset` both return, with the same position `first + 1`, the same `totalSize`, the
same number of slots, and slot `i` holding the item created for index `first + 1 + i`; when
the guard fails `moveToNext` returns the state unchanged. The same holds for `moveToPrev`
with the guard `first > 0` and the position `first - 1`. Sums are taken in `size_t`, as the
code takes them. -/
theorem CListBox.shift_agrees_with_reset (env : Env) (s : CListBox) (hwf : s.WF)
    (hn : 0 < s.items.length) (hw : s.SlotsMadeFor) :
    (addSz s.first s.items.length < s.totalSize →
      ∃ a b, CListBox.moveToNext env s = some a ∧
        CListBox.reset env { s with first := addSz s.first 1 } = some b ∧
        a.getPos = addSz s.first 1 ∧ b.getPos = addSz s.first 1 ∧
        a.totalSize = s.totalSize ∧ b.totalSize = s.totalSize ∧
        a.items.length = s.items.length ∧ b.items.length = s.items.length ∧
        a.SlotsMadeFor ∧ b.SlotsMadeFor) ∧
    (¬ addSz s.first s.items.length < s.totalSize → CListBox.moveToNext env s = some s) ∧
    (s.first ≠ 0 →
      ∃ a b, CListBox.moveToPrev env s = some a ∧
        CListBox.reset env { s with first := s.first - 1 } = some b ∧
        a.getPos = s.first - 1 ∧ b.getPos = s.first - 1 ∧
        a.totalSize = s.totalSize ∧ b.totalSize = s.totalSize ∧
        a.items.length = s.items.length ∧ b.items.length = s.items.length ∧
        a.SlotsMadeFor ∧ b.SlotsMadeFor) ∧
    (s.first = 0 → CListBox.moveToPrev env s = some s) := by
  have hw1 : s.holdsWindow = true := (holdsWindow_iff s hwf.1).mpr hw
  refine ⟨fun hg => ?_, fun hg => moveToNext_idle env s hg, fun hg => ?_,
    fun hg => moveToPrev_idle env s hg⟩
  · obtain ⟨a, ha⟩ := moveToNext_total env s hwf hn
    obtain ⟨b, hb⟩ := reset_total env { s with first := addSz s.first 1 }
    have hp : addSz s.first 1 < SZ := Nat.mod_lt _ (by decide)
    obtain ⟨awf, aadv, atot, awin, apos⟩ := moveToNext_sound env s a hwf ha
    obtain ⟨bwf, badv, btot, bpos, bwin⟩ := reset_at_sound env s b hwf _ hp hb
    have afirst : a.first = addSz s.first 1 := by
      rcases apos with h | h
      · exact h.2
      · exact absurd hg h.1
    exact ⟨a, b, ha, hb, afirst, bpos, atot, btot, aadv.1, badv.1,
      (holdsWindow_iff a awf.1).mp (awin hw1), (holdsWindow_iff b bwf.1).mp bwin⟩
  · obtain ⟨a, ha⟩ := moveToPrev_total env s hwf hn
    obtain ⟨b, hb⟩ := reset_total env { s with first := s.first - 1 }
    have hp : s.first - 1 < SZ := lt_of_le_of_lt (Nat.sub_le _ _) hwf.1
    obtain ⟨awf, aadv, atot, awin, apos⟩ := moveToPrev_sound env s a hwf ha
    obtain ⟨bwf, badv, btot, bpos, bwin⟩ := reset_at_sound env s b hwf _ hp hb
    have afirst : a.first = s.first - 1 := by
      rcases apos with h | h
      · exact h.2
      · exact absurd h.1 hg
    exact ⟨a, b, ha, hb, afirst, bpos, atot, btot, aadv.1, badv.1,
      (holdsWindow_iff a awf.1).mp (awin hw1), (holdsWindow_iff b bwf.1).mp bwin⟩

/-- C6, witness: the statement at the sample list box (items 0 and 1 of 5). -/
theorem CListBox.shift_agrees_with_reset_witness :
    sampleBox.WF ∧ 0 < sampleBox.items.length ∧ sampleBox.SlotsMadeFor ∧
    (addSz sampleBox.first sampleBox.items.length < sampleBox.totalSize →
      ∃ a b, CListBox.moveToNext env0 sampleBox = some a ∧
        CListBox.reset env0 { sampleBox with first := addSz sampleBox.first 1 } = some b ∧
        a.getPos = addSz sampleBox.first 1 ∧ b.getPos = addSz sampleBox.first 1 ∧
        a.totalSize = sampleBox.totalSize ∧ b.totalSize = sampleBox.totalSize ∧
        a.items.length = sampleBox.items.length ∧ b.items.length = sampleBox.items.length ∧
        a.SlotsMadeFor ∧ b.SlotsMadeFor) :=
  ⟨by decide, by decide, (holdsWindow_iff sampleBox (by decide)).mp (by decide),
    (CListBox.shift_agrees_with_reset env0 sampleBox (by decide) (by decide)
      ((holdsWindow_iff sampleBox (by decide)).mp (by decide))).1⟩

/-! ### C7 and C8: `moveToPos` and `scrollTo` -/

theorem moveToPos_spec (env : Env) (s : CListBox) (which : Nat) (hwf : s.WF)
    (hn : 0 < s.items.length) (hw : which < SZ) :
    ∃ s1, CListBox.moveToPos env s which = some s1 ∧ s1.WF ∧
      s1.items.length = s.items.length ∧ s1.totalSize = s.totalSize ∧
      (¬ (s.first = SZ - 1 ∧ s.totalSize < s.items.length) →
        s1.first = min which s.maxPossible) ∧
      (s.first = SZ - 1 ∧ s.totalSize < s.items.length → s1 = s) ∧
      (min which s.maxPossible = s.first → s1 = s) := by
  obtain ⟨s1, h⟩ := moveToPos_total env s hwf hn which
  obtain ⟨hwf1, hadv, htot⟩ := moveToPos_sound env s s1 hwf which hw h
  refine ⟨s1, h, hwf1, hadv.1, htot, ?_⟩
  obtain ⟨hf, ht, hl, hall⟩ := hwf
  have hmax : s.maxPossible = if s.totalSize > s.items.length then s.totalSize - s.items.length
      else 0 := rfl
  generalize hnp : min which s.maxPossible = newPos at *
  have hnp1 : newPos ≤ which := by rw [← hnp]; exact Nat.min_le_left _ _
  have hnp2 : newPos ≤ s.maxPossible := by rw [← hnp]; exact Nat.min_le_right _ _
  have hnp3 : newPos = which ∨ newPos = s.maxPossible := by
    rw [← hnp]; rcases Nat.le_total which s.maxPossible with h1 | h1
    · left; exact Nat.min_eq_left h1
    · right; exact Nat.min_eq_right h1
  unfold CListBox.moveToPos at h
  simp only [hnp] at h
  split at h
  · rename_i hc
    obtain ⟨_, _, _, _, hpos⟩ := moveToPrev_sound env s s1 ⟨hf, ht, hl, hall⟩ h
    unfold subSz SZ at hc
    unfold SZ at hf ht hl hw
    unfold SZ
    refine ⟨fun _ => ?_, fun hex => ?_, fun heq => ?_⟩
    · rcases hpos with ⟨_, hp⟩ | ⟨hp, _⟩
      · rw [hp]; split at hmax <;> omega
      · split at hmax <;> omega
    · split at hmax <;> omega
    · omega
  · rename_i hc
    split at h
    · rename_i hc2
      obtain ⟨_, _, _, _, hpos⟩ := moveToNext_sound env s s1 ⟨hf, ht, hl, hall⟩ h
      unfold subSz SZ at hc hc2
      unfold addSz SZ at hpos
      unfold SZ at hf ht hl hw
      unfold SZ
      refine ⟨fun hne => ?_, fun hex => ?_, fun heq => ?_⟩
      · rcases hpos with ⟨_, hp⟩ | ⟨hg, _⟩
        · rw [hp]; split at hmax <;> omega
        · split at hmax <;> omega
      · rcases hpos with ⟨hg, _⟩ | ⟨_, hp⟩
        · split at hmax <;> omega
        · exact hp
      · omega
    · split at h
      · rename_i hc2 hc3
        obtain ⟨_, _, _, hp, _⟩ := reset_at_sound env s s1 ⟨hf, ht, hl, hall⟩ newPos
          (lt_of_le_of_lt hnp1 hw) h
        unfold subSz SZ at hc
        unfold SZ at hf ht hl hw
        unfold SZ
        refine ⟨fun _ => hp, fun hex => ?_, fun heq => absurd heq hc3⟩
        unfold subSz SZ at hc2
        split at hmax <;> omega
      · simp only [Option.some.injEq] at h
        rename_i hc3
        simp only [ne_eq, not_not] at hc3
        exact ⟨fun _ => by rw [← h]; exact hc3.symm, fun _ => h.symm, fun _ => h.symm⟩

/-- C7, away from the failing input: in a list box with at least one visible slot
`moveToPos(which)` returns, keeps `totalSize` and the number of slots, and leaves the position
`getPos() = min(which, maxPossible)`, where `maxPossible` is `totalSize - items.size()` if
`totalSize > items.size()` and 0 otherwise, on every path, unless `first = 2^64 - 1` and
`totalSize < items.size()`. In particular, when `items.size() <= totalSize` the position is
`min(which, maxPossible)` and the window stays over the item set:
`first + items.size() <= totalSize`. -/
theorem CListBox.moveToPos_position (env : Env) (s : CListBox) (which : Nat) (hwf : s.WF)
    (hn : 0 < s.items.length) (hw : which < SZ) :
    ∃ s1, CListBox.moveToPos env s which = some s1 ∧
      s1.items.length = s.items.length ∧ s1.totalSize = s.totalSize ∧
      (¬ (s.first = SZ - 1 ∧ s.totalSize < s.items.length) →
        s1.getPos =
          min which (if s.totalSize > s.items.length then s.totalSize - s.items.length else 0)) ∧
      (s.items.length ≤ s.totalSize →
        s1.getPos =
          min which (if s.totalSize > s.items.length then s.totalSize - s.items.length else 0) ∧
        s1.first + s1.items.length ≤ s1.totalSize) := by
  obtain ⟨s1, h, _, hlen, htot, hpos, _, _⟩ := moveToPos_spec env s which hwf hn hw
  refine ⟨s1, h, hlen, htot, hpos, fun hle => ?_⟩
  have hp := hpos (fun hex => absurd hle (Nat.not_le.mpr hex.2))
  refine ⟨hp, ?_⟩
  have hp2 : s1.first = min which s.maxPossible := hp
  have hm : min which s.maxPossible ≤ s.maxPossible := Nat.min_le_right _ _
  have hmax : s.maxPossible = if s.totalSize > s.items.length then s.totalSize - s.items.length
      else 0 := rfl
  rw [hlen, htot]
  split at hmax <;> omega

/-- C7, an instance: the statement above at the sample list box and the position 3. -/
theorem CListBox.moveToPos_position_witness :
    ∃ s1, CListBox.moveToPos env0 sampleBox 3 = some s1 ∧
      s1.items.length = sampleBox.items.length ∧ s1.totalSize = sampleBox.totalSize ∧
      (¬ (sampleBox.first = SZ - 1 ∧ sampleBox.totalSize < sampleBox.items.length) →
        s1.getPos =
          min 3 (if sampleBox.totalSize > sampleBox.items.length then
            sampleBox.totalSize - sampleBox.items.length else 0)) ∧
      (sampleBox.items.length ≤ sampleBox.totalSize →
        s1.getPos =
          min 3 (if sampleBox.totalSize > sampleBox.items.length then
            sampleBox.totalSize - sampleBox.items.length else 0) ∧
        s1.first + s1.items.length ≤ s1.totalSize) :=
  CListBox.moveToPos_position env0 sampleBox 3 (by decide) (by decide) (by decide)

/-- C7, at the failing input: the list box built with `VisibleSize = 2`, `TotalSize = 1`,
`InitialPos = 2^64 - 1` has two visible slots; `moveToPos(0)` computes `maxPossible = 0` and
the new position 0, takes the shift-by-one path to `moveToNext` because `0 - first` is 1 in
`size_t`, and `moveToNext` does nothing because its guard fails: `getPos()` stays
`2^64 - 1` and is not `min(0, maxPossible) = 0`. -/
theorem CListBox.moveToPos_position_stuck :
    (CListBox.ctor env0 ⟨0, 0⟩ ⟨0, 1⟩ 2 1 (SZ - 1) 0).bind
        (fun s => (CListBox.moveToPos env0 s 0).map
          (fun s1 => (s.items.length, s.totalSize, s.first, min 0 s.maxPossible, s1.getPos)))
      = some (2, 1, SZ - 1, 0, SZ - 1) := by
  decide

/-- C8, away from the failing inputs: in a list box with at least one visible slot whose window end
`first + items.size()` does not wrap around (it is below 2^64), for every index
`which < totalSize` the call `scrollTo(which)` returns and leaves the index inside the
visible window, `first <= which < first + items.size()`; when `which` was inside the window
before the call, the state (position and window) is unchanged. -/
theorem CListBox.scrollTo_shows (env : Env) (s : CListBox) (which : Nat) (hwf : s.WF)
    (hn : 0 < s.items.length) (hw : which < s.totalSize)
    (hno : s.first + s.items.length < SZ) :
    ∃ s1, CListBox.scrollTo env s which = some s1 ∧
      s1.first ≤ which ∧ which < s1.first + s1.items.length ∧
      (s.first ≤ which → which < s.first + s.items.length → s1 = s) := by
  have hmax : s.maxPossible = if s.totalSize > s.items.length then s.totalSize - s.items.length
      else 0 := rfl
  have hadd : addSz s.first s.items.length = s.first + s.items.length := Nat.mod_eq_of_lt hno
  have hwlt : which < SZ := lt_trans hw hwf.2.1
  have hnex : ¬ (s.first = SZ - 1 ∧ s.totalSize < s.items.length) := by
    unfold SZ at hno ⊢; omega
  unfold CListBox.scrollTo
  by_cases h1 : s.first > which
  · rw [if_pos h1]
    obtain ⟨s1, h, _, hlen, htot, hpos, _, _⟩ := moveToPos_spec env s which hwf hn hwlt
    have hp := hpos hnex
    have hm1 : min which s.maxPossible ≤ which := Nat.min_le_left _ _
    have hm2 : min which s.maxPossible = which ∨ min which s.maxPossible = s.maxPossible := by
      rcases Nat.le_total which s.maxPossible with h2 | h2
      · left; exact Nat.min_eq_left h2
      · right; exact Nat.min_eq_right h2
    refine ⟨s1, h, by omega, ?_, fun h3 => absurd h3 (by omega)⟩
    rw [hlen, hp]
    split at hmax <;> omega
  · rw [if_neg h1]
    by_cases h2 : addSz s.first s.items.length ≤ which ∧ which < s.totalSize
    · rw [if_pos h2]
      rw [hadd] at h2
      have hsub : addSz (subSz which s.items.length) 1 = which - s.items.length + 1 := by
        unfold addSz subSz SZ
        unfold SZ at hwlt hno
        omega
      rw [hsub]
      have hlt : which - s.items.length + 1 < SZ := by unfold SZ at hwlt ⊢; omega
      obtain ⟨s1, h, _, hlen, htot, hpos, _, _⟩ :=
        moveToPos_spec env s (which - s.items.length + 1) hwf hn hlt
      have hp := hpos hnex
      have hmin : min (which - s.items.length + 1) s.maxPossible
          = which - s.items.length + 1 := by
        apply Nat.min_eq_left
        split at hmax <;> omega
      rw [hmin] at hp
      refine ⟨s1, h, by omega, by omega, fun _ h4 => absurd h4 (by omega)⟩
    · rw [if_neg h2]
      rw [hadd] at h2
      exact ⟨s, rfl, by omega, by omega, fun _ _ => rfl⟩

/-- C8, an instance: the statement above at the sample list box and the index 4. -/
theorem CListBox.scrollTo_shows_witness :
    ∃ s1, CListBox.scrollTo env0 sampleBox 4 = some s1 ∧
      s1.first ≤ 4 ∧ 4 < s1.first + s1.items.length ∧
      (sampleBox.first ≤ 4 → 4 < sampleBox.first + sampleBox.items.length → s1 = sampleBox) :=
  CListBox.scrollTo_shows env0 sampleBox 4 (by decide) (by decide) (by decide) (by decide)

/-- C8, at the failing input: the list box built with `VisibleSize = 2`, `TotalSize = 1`,
`InitialPos = 2^64 - 1` has two visible slots and `totalSize = 1`; `scrollTo(0)` calls
`moveToPos(0)`, which leaves the position at `2^64 - 1`, so index 0, which is below
`totalSize`, is not inside the window: `first <= 0` is false after the call. -/
theorem CListBox.scrollTo_misses :
    (CListBox.ctor env0 ⟨0, 0⟩ ⟨0, 1⟩ 2 1 (SZ - 1) 0).bind
        (fun s => (CListBox.scrollTo env0 s 0).map
          (fun s1 => (s.items.length, s.totalSize, s1.first,
            decide (s1.first ≤ 0 ∧ 0 < s1.first + s1.items.length))))
      = some (2, 1, SZ - 1, false) := by
  decide

/-- C8, second evaluation: in the list box built with `VisibleSize = 3`,
`TotalSize = 2^64 - 1`, `InitialPos = 2^64 - 2` the index `2^64 - 2` is shown in slot 0, yet
`scrollTo(2^64 - 2)` finds the wrapped window end `first + items.size() = 1` at or below it
and moves the position to `2^64 - 4`. -/
theorem CListBox.scrollTo_moves_needlessly :
    (CListBox.ctor env0 ⟨0, 0⟩ ⟨0, 1⟩ 3 (SZ - 1) (SZ - 2) 0).bind
        (fun s => (CListBox.scrollTo env0 s (SZ - 2)).map
          (fun s1 => (s.first, s.items.length, s.totalSize, s1.first)))
      = some (SZ - 2, 3, SZ - 1, SZ - 4) := by
  decide

/-! ### C10 and C9: the popup list of the drop box -/

theorem toUnsigned_of_nonneg (i : Int) (h0 : 0 ≤ i) (h1 : i < 2147483648) :
    toUnsigned i = i.toNat := by
  unfold toUnsigned UINT
  omega

theorem toUnsigned_ne_zero (i : Int) (h0 : -2147483648 ≤ i) (h1 : i < 2147483648)
    (hne : i ≠ 0) : toUnsigned i ≠ 0 := by
  unfold toUnsigned UINT
  omega

theorem clickIndex_some (d : DropBoxList) (hwf : d.WF) (hh : d.posH ≠ 0) :
    d.clickIndex = some ((d.sliderPosition +
      (toUnsigned (max d.mouseY 0) * d.visibleItems) % UINT / toUnsigned d.posH) % UINT) := by
  unfold DropBoxList.clickIndex
  simp only
  rw [if_neg (toUnsigned_ne_zero d.posH hwf.2.2.2.2.1 hwf.2.2.2.2.2 hh)]

/-- With the mouse inside the window and no wrap-around the clicked index is one of the
visible rows. -/
theorem clickIndex_in_window (d : DropBoxList) (index : Nat) (hwf : d.WF)
    (hi : d.clickIndex = some index) (hy0 : 0 ≤ d.mouseY) (hy1 : d.mouseY < d.posH)
    (hno : d.sliderPosition + d.visibleItems ≤ UINT) (hv : 1 ≤ d.visibleItems) :
    d.sliderPosition ≤ index ∧ index < d.sliderPosition + d.visibleItems := by
  have hh1 : d.posH < 2147483648 := hwf.2.2.2.2.2
  have hh : d.posH ≠ 0 := by omega
  rw [clickIndex_some d hwf hh] at hi
  simp only [Option.some.injEq] at hi
  have hmax : max d.mouseY 0 = d.mouseY := max_eq_left hy0
  rw [hmax, toUnsigned_of_nonneg d.mouseY hy0 (by omega),
    toUnsigned_of_nonneg d.posH (by omega) hh1] at hi
  have hlt : d.mouseY.toNat < d.posH.toNat := by omega
  have hq : (d.mouseY.toNat * d.visibleItems) % UINT / d.posH.toNat < d.visibleItems := by
    rw [Nat.div_lt_iff_lt_mul (by omega)]
    calc (d.mouseY.toNat * d.visibleItems) % UINT
        ≤ d.mouseY.toNat * d.visibleItems := Nat.mod_le _ _
      _ < d.posH.toNat * d.visibleItems := Nat.mul_lt_mul_of_pos_right hlt hv
      _ = d.visibleItems * d.posH.toNat := Nat.mul_comm _ _
  generalize (d.mouseY.toNat * d.visibleItems) % UINT / d.posH.toNat = q at hi hq
  unfold UINT at hi hno
  omega

/-- C9, as the code has it: in a popup list whose window height `pos.h` is not 0, a left click
returns, with `index = sliderPosition + (max(mouseY, 0) * visibleItems) / pos.h` computed in
`unsigned` arithmetic. The owner's `selectedIndex` and label text are set to `index` and
`itemNames[index]`, and the callback, if one is set, is called once with `index`, exactly
when the button is down, the click is left of the slider and `index < itemNames.size()`; in
every other case the owner is unchanged. So a click never sets `selectedIndex` to a value
`>= itemNames.size()`. For `0 <= mouseY < pos.h`, `visibleItems >= 1` and
`sliderPosition + visibleItems <= 2^32` the index lies in
`[sliderPosition, sliderPosition + visibleItems)`. -/
theorem DropBoxList.clickLeft_selects (d : DropBoxList) (down : Tribool) (previousState : Bool)
    (hwf : d.WF) (hh : d.posH ≠ 0) :
    ∃ index d1, d.clickIndex = some index ∧ d.clickLeft down previousState = some d1 ∧
      (down = Tribool.yes ∧ d.mouseX < d.posW - d.sliderW ∧ index < d.itemNames.length →
        d1.owner.selectedIndex = index ∧
        d.itemNames.get? index = some d1.owner.selection ∧
        d1.owner.callbackCalls =
          (if d.owner.hasCallback then index :: d.owner.callbackCalls
           else d.owner.callbackCalls)) ∧
      (¬ (down = Tribool.yes ∧ d.mouseX < d.posW - d.sliderW ∧ index < d.itemNames.length) →
        d1.owner = d.owner) ∧
      (d1.owner.selectedIndex = d.owner.selectedIndex ∨
        d1.owner.selectedIndex < d.itemNames.length) ∧
      (0 ≤ d.mouseY → d.mouseY < d.posH → 1 ≤ d.visibleItems →
        d.sliderPosition + d.visibleItems ≤ UINT →
        d.sliderPosition ≤ index ∧ index < d.sliderPosition + d.visibleItems) := by
  have hidx := clickIndex_some d hwf hh
  generalize hq : (d.sliderPosition +
      (toUnsigned (max d.mouseY 0) * d.visibleItems) % UINT / toUnsigned d.posH) % UINT = index
    at hidx
  have hwin : 0 ≤ d.mouseY → d.mouseY < d.posH → 1 ≤ d.visibleItems →
      d.sliderPosition + d.visibleItems ≤ UINT →
      d.sliderPosition ≤ index ∧ index < d.sliderPosition + d.visibleItems :=
    fun h0 h1 hv hno => clickIndex_in_window d index hwf hidx h0 h1 hno hv
  by_cases hc : down = Tribool.yes ∧ d.mouseX < d.posW - d.sliderW
  · by_cases hi : index < d.itemNames.length
    · have hcl : d.clickLeft down previousState = some { d with
          owner := { d.owner with
            selectedIndex := index,
            selection := d.itemNames.get ⟨index, hi⟩,
            callbackCalls :=
              if d.owner.hasCallback then index :: d.owner.callbackCalls
              else d.owner.callbackCalls },
          closed := true } := by
        unfold DropBoxList.clickLeft
        rw [if_pos hc, hidx]
        simp only
        rw [dif_pos hi]
      refine ⟨index, _, hidx, hcl, fun _ => ⟨rfl, ?_, rfl⟩,
        fun hn => absurd ⟨hc.1, hc.2, hi⟩ hn, Or.inr hi, hwin⟩
      exact List.get?_eq_get hi
    · refine ⟨index, { d with closed := true }, hidx, ?_, ?_⟩
      · unfold DropBoxList.clickLeft
        rw [if_pos hc, hidx]
        simp only
        rw [dif_neg hi]
      · exact ⟨fun h => absurd h.2.2 hi, fun _ => rfl, Or.inl rfl, hwin⟩
  · refine ⟨index, d, hidx, ?_, ?_⟩
    · unfold DropBoxList.clickLeft
      rw [if_neg hc]
    · exact ⟨fun h => absurd ⟨h.1, h.2.1⟩ hc, fun _ => rfl, Or.inl rfl, hwin⟩

/-- C9, witness: the statement at the sample popup list and a click with the button down. -/
theorem DropBoxList.clickLeft_selects_witness :
    ∃ index d1, sampleDrop.clickIndex = some index ∧
      sampleDrop.clickLeft Tribool.yes false = some d1 ∧
      (Tribool.yes = Tribool.yes ∧ sampleDrop.mouseX < sampleDrop.posW - sampleDrop.sliderW ∧
          index < sampleDrop.itemNames.length →
        d1.owner.selectedIndex = index ∧
        sampleDrop.itemNames.get? index = some d1.owner.selection ∧
        d1.owner.callbackCalls =
          (if sampleDrop.owner.hasCallback then index :: sampleDrop.owner.callbackCalls
           else sampleDrop.owner.callbackCalls)) ∧
      (¬ (Tribool.yes = Tribool.yes ∧ sampleDrop.mouseX < sampleDrop.posW - sampleDrop.sliderW ∧
          index < sampleDrop.itemNames.length) →
        d1.owner = sampleDrop.owner) ∧
      (d1.owner.selectedIndex = sampleDrop.owner.selectedIndex ∨
        d1.owner.selectedIndex < sampleDrop.itemNames.length) ∧
      (0 ≤ sampleDrop.mouseY → sampleDrop.mouseY < sampleDrop.posH →
        1 ≤ sampleDrop.visibleItems →
        sampleDrop.sliderPosition + sampleDrop.visibleItems ≤ UINT →
        sampleDrop.sliderPosition ≤ index ∧
          index < sampleDrop.sliderPosition + sampleDrop.visibleItems) :=
  DropBoxList.clickLeft_selects sampleDrop Tribool.yes false (by decide) (by decide)

/-- C9, counterexample: the popup opened by a drop box with 5 items, 4 visible rows and
`selectedIndex = 2^32 - 1` (no valid selection) in a window 40 high starts at
`sliderPosition = 2^32 - 3`, whatever its uninitialised mouse members hold. After the mouse
moved to `mouseY = 35`, inside the window, a click
computes `(35 * 4) / 40 = 3` and `index = 2^32 - 3 + 3 = 0` in `unsigned` arithmetic, and
selects item 0, which is not in `[sliderPosition, sliderPosition + visibleItems)`. -/
theorem DropBoxList.clickLeft_outside_window :
    (DropBoxList.ctor (CDropBox.ctor 4 sampleNames 4294967295) 100 40 16 0 0 (-7) 1234
        sampleNames 4294967295 4).bind
      (fun d => ((d.mouseMoved 5 35).clickLeft Tribool.yes false).map
        (fun d1 => (d.sliderPosition, d.visibleItems, (d.mouseMoved 5 35).mouseY,
          (d.mouseMoved 5 35).clickIndex, d1.owner.selectedIndex,
          decide (d.sliderPosition ≤ d1.owner.selectedIndex))))
      = some (4294967293, 4, 35, some 0, 0, false) := by
  decide

end ObjectLists
